import Mathlib

/-
  Verification development for the gemini-note-processor Obsidian plugin
  (src/main.ts).

  The file shallowly embeds the extraction / normalization / dispatch core of
  the plugin: the moment.js calendar operations it relies on, the natural
  language date normalizer `parseNaturalDate` (both the truncated copy at
  main.ts:2893 and the full copy at main.ts:4854), the task extraction and
  formatting functions (`processExtractedTasks`, `parseTasksForObsidianTasks`,
  `formatTaskForObsidianTasks`), the trigger scanner and dispatcher
  (`detectTriggerWords`, `processTriggerWithGemini`, `processTriggersInText`),
  and the folder monitor (`FolderMonitor.getMatchingFiles` /
  `FolderMonitor.processFiles`).

  JavaScript regular expressions are embedded as hand-written matcher
  functions over character lists; each matcher's doc comment quotes the
  pattern it implements.  Dates are civil triples (year, month 1-12, day of
  month).  moment.js stores a timestamp and derives the civil fields; here
  the civil fields are primary and `dayNumber` (days since 1970-01-01, via
  the standard civil-calendar formula) plays the role of the timestamp for
  comparisons and week arithmetic, which is equivalent for the date-only
  values this plugin manipulates.  External collaborators (the Gemini call,
  the vault file system, the ambient clock `window.moment()`) are injected
  as parameters, mirroring how the code reaches them.
-/

set_option maxRecDepth 100000

namespace NoteProc

/-- Proleptic Gregorian leap-year test, as moment.js computes it. -/
def isLeap (y : Int) : Bool :=
  (y % 4 == 0 && y % 100 != 0) || y % 400 == 0

/-- Number of days in month `m` (1 to 12) of year `y`. -/
def daysInMonth (y : Int) (m : Int) : Int :=
  if m == 2 then (if isLeap y then 29 else 28)
  else if m == 4 || m == 6 || m == 9 || m == 11 then 30
  else 31

/-- A calendar date as moment.js exposes it: year, month (1 to 12), day of month. -/
structure MDate where
  year : Int
  month : Int
  day : Int
deriving DecidableEq, Repr

/-- Validity of a civil triple: the month is 1..12 and the day fits the month. -/
def validDate (t : MDate) : Bool :=
  1 ≤ t.month && t.month ≤ 12 && 1 ≤ t.day && t.day ≤ daysInMonth t.year t.month

/-- Days since 1970-01-01 of a civil date (standard civil-calendar formula;
    the same proleptic Gregorian day count moment.js timestamps encode). -/
def daysFromCivil (Y M D : Int) : Int :=
  let y := if M <= 2 then Y - 1 else Y
  let era := y / 400
  let yoe := y - era * 400
  let mp := (M + 9) % 12
  let doy := (153 * mp + 2) / 5 + D - 1
  let doe := yoe * 365 + yoe / 4 - yoe / 100 + doy
  era * 146097 + doe - 719468

/-- Day count since 1970-01-01 of an `MDate`. -/
def dayNumber (t : MDate) : Int := daysFromCivil t.year t.month t.day

/-- Successor day of a civil date. -/
def nextDay (t : MDate) : MDate :=
  if t.day < daysInMonth t.year t.month then ⟨t.year, t.month, t.day + 1⟩
  else if t.month < 12 then ⟨t.year, t.month + 1, 1⟩
  else ⟨t.year + 1, 1, 1⟩

/-- Predecessor day of a civil date. -/
def prevDay (t : MDate) : MDate :=
  if 1 < t.day then ⟨t.year, t.month, t.day - 1⟩
  else if 1 < t.month then ⟨t.year, t.month - 1, daysInMonth t.year (t.month - 1)⟩
  else ⟨t.year - 1, 12, 31⟩

/-- Iterated successor. -/
def addDaysNat : Nat → MDate → MDate
  | 0, t => t
  | n + 1, t => addDaysNat n (nextDay t)

/-- Iterated predecessor. -/
def subDaysNat : Nat → MDate → MDate
  | 0, t => t
  | n + 1, t => subDaysNat n (prevDay t)

/-- moment `.add(n, 'days')` (negative `n` subtracts). -/
def addDays (t : MDate) (n : Int) : MDate :=
  if 0 ≤ n then addDaysNat n.toNat t else subDaysNat (-n).toNat t

/-- moment `.day()` getter: 0 = Sunday .. 6 = Saturday (1970-01-01 was a Thursday). -/
def dowM (t : MDate) : Int := (dayNumber t + 4) % 7

/-- moment `.day(target)` setter: moves within the current Sunday-based week. -/
def setDow (t : MDate) (target : Int) : MDate := addDays t (target - dowM t)

/-- moment `.add(n, 'weeks')`. -/
def addWeeks (t : MDate) (n : Int) : MDate := addDays t (7 * n)

/-- moment `.add(n, 'months')`: shifts the month, clamping the day of month to
    the target month's length. -/
def addMonthsClamped (t : MDate) (n : Int) : MDate :=
  let mm := 12 * t.year + (t.month - 1) + n
  let y := mm / 12
  let m := mm - 12 * y + 1
  ⟨y, m, min t.day (daysInMonth y m)⟩

/-- moment `.add(n, 'years')`: same month, day clamped (Feb 29 to Feb 28). -/
def addYearsClamped (t : MDate) (n : Int) : MDate :=
  ⟨t.year + n, t.month, min t.day (daysInMonth (t.year + n) t.month)⟩

/-- moment `.year(y)` setter: keeps month and day, clamping Feb 29 to Feb 28. -/
def setYearClamped (t : MDate) (y : Int) : MDate :=
  ⟨y, t.month, min t.day (daysInMonth y t.month)⟩

/-- moment `.month(m0)` setter (0-based month), clamping the day of month. -/
def setMonthClamped (t : MDate) (m0 : Int) : MDate :=
  ⟨t.year, m0 + 1, min t.day (daysInMonth t.year (m0 + 1))⟩

/-- Fueled normalizer behind the moment `.date(d)` setter: a day of month
    outside 1..daysInMonth bubbles into the adjacent months, as moment does
    (`.date(0)` is the last day of the previous month). -/
def dateOverflow : Nat → Int → Int → Int → MDate
  | 0, y, m, d => ⟨y, m, d⟩
  | fuel + 1, y, m, d =>
    if d < 1 then
      let y' := if m == 1 then y - 1 else y
      let m' := if m == 1 then (12 : Int) else m - 1
      dateOverflow fuel y' m' (d + daysInMonth y' m')
    else if d > daysInMonth y m then
      let y' := if m == 12 then y + 1 else y
      let m' := if m == 12 then (1 : Int) else m + 1
      dateOverflow fuel y' m' (d - daysInMonth y m)
    else ⟨y, m, d⟩

/-- moment `.date(d)` setter: sets the day of month absolutely, overflow
    bubbling into adjacent months. -/
def setDayOfMonth (t : MDate) (d : Int) : MDate := dateOverflow 48 t.year t.month d

/-- moment `.endOf('week')` (default locale: week starts Sunday, so Saturday). -/
def endOfWeek (t : MDate) : MDate := addDays t (6 - dowM t)

/-- moment `.endOf('month')`. -/
def endOfMonth (t : MDate) : MDate := ⟨t.year, t.month, daysInMonth t.year t.month⟩

/-- moment `.endOf('year')`. -/
def endOfYear (t : MDate) : MDate := ⟨t.year, 12, 31⟩

/-- Zero-padded two-digit rendering of a nonnegative number. -/
def pad2 (n : Int) : String :=
  if 0 <= n && n < 10 then "0" ++ toString n else toString n

/-- Zero-padded four-digit rendering of a nonnegative number. -/
def pad4 (n : Int) : String :=
  if 0 <= n && n < 10 then "000" ++ toString n
  else if 0 <= n && n < 100 then "00" ++ toString n
  else if 0 <= n && n < 1000 then "0" ++ toString n
  else toString n

/-- moment `.format('YYYY-MM-DD')`. -/
def formatYMD (t : MDate) : String :=
  pad4 t.year ++ "-" ++ pad2 t.month ++ "-" ++ pad2 t.day

/-- JS whitespace class for the patterns in this code base. -/
def isWSc (c : Char) : Bool := c == ' ' || c == '\t' || c == '\n' || c == '\r'

/-- JS word-character class `[A-Za-z0-9_]`. -/
def isWordc (c : Char) : Bool := c.isAlpha || c.isDigit || c == '_'

/-- ASCII digit test. -/
def isDigitc (c : Char) : Bool := c.isDigit

/-- JS `toLowerCase` for the ASCII inputs this code handles. -/
def lowerStr (s : String) : String := String.mk (s.data.map Char.toLower)

/-- JS `String.prototype.trim`. -/
def trimStr (s : String) : String :=
  String.mk (((s.data.dropWhile isWSc).reverse.dropWhile isWSc).reverse)

/-- Splits on a single separator character (JS `split(sep)` for the one-character
    separators this code uses). -/
def splitChar (sep : Char) (s : String) : List String :=
  (s.data.foldr
    (fun c acc =>
      if c == sep then [] :: acc
      else
        match acc with
        | a :: as => (c :: a) :: as
        | [] => [[c]])
    [[]]).map String.mk

/-- Prefix test on strings (JS `startsWith`). -/
def startsWithStr (p s : String) : Bool := p.data.isPrefixOf s.data

/-- JS `Array.prototype.join(sep)`. -/
def joinWith (sep : String) : List String → String
  | [] => ""
  | [x] => x
  | x :: y :: rest => x ++ sep ++ joinWith sep (y :: rest)

/-- Substring test (used to state residual-marker properties). -/
def hasSubstrAux (pat : List Char) : List Char → Bool
  | [] => pat.isEmpty
  | c :: rest => pat.isPrefixOf (c :: rest) || hasSubstrAux pat rest

/-- Substring test (used to state residual-marker properties). -/
def hasSubstr (s pat : String) : Bool := hasSubstrAux pat.data s.data

/-- Tag characters of `/#[\w-]+/`. -/
def isTagChar (c : Char) : Bool := isWordc c || c == '-'

/-- A hashtag token `#[\w-]+` occurring anywhere in a character list: some
    `#` immediately followed by a tag character. -/
def hasTagToken : List Char → Bool
  | [] => false
  | [_] => false
  | c1 :: c2 :: rest => (c1 == '#' && isTagChar c2) || hasTagToken (c2 :: rest)

/-- Numeric value of an all-digit capture (JS `parseInt`). -/
def digitsToInt : List Char → Int → Int
  | [], acc => acc
  | c :: cs, acc => digitsToInt cs (acc * 10 + Int.ofNat (c.toNat - 48))

/-- Matches `kw` followed by at least one whitespace and returns the remainder
    with the whitespace run consumed; used for the anchored patterns that start
    with a literal keyword and a mandatory space. -/
def afterKeywordWs (kw s : String) : Option String :=
  if kw.data.isPrefixOf s.data then
    match s.data.drop kw.data.length with
    | [] => none
    | c :: rest => if isWSc c then some (String.mk ((c :: rest).dropWhile isWSc)) else none
  else none

/-- Position of a weekday name in the JS lookup list
    `['sunday','monday','tuesday','wednesday','thursday','friday','saturday']`. -/
def weekdayTarget (s : String) : Option Int :=
  if s == "sunday" then some 0 else if s == "monday" then some 1
  else if s == "tuesday" then some 2 else if s == "wednesday" then some 3
  else if s == "thursday" then some 4 else if s == "friday" then some 5
  else if s == "saturday" then some 6 else none

/-- The unit captured by the `next` pattern. -/
inductive NextUnit
  | wd (target : Int)
  | week
  | month
  | year
deriving DecidableEq, Repr

/-- Matcher for `/^next\s+(monday|...|sunday|week|month|year)$/`. -/
def nextMatch (s : String) : Option NextUnit :=
  match afterKeywordWs "next" s with
  | none => none
  | some r =>
    match weekdayTarget r with
    | some t => some (NextUnit.wd t)
    | none =>
      if r == "week" then some NextUnit.week
      else if r == "month" then some NextUnit.month
      else if r == "year" then some NextUnit.year
      else none

/-- The unit captured by the `this` pattern. -/
inductive ThisUnit
  | wd (target : Int)
  | weekend
deriving DecidableEq, Repr

/-- Matcher for `/^this\s+(monday|...|sunday|weekend)$/`. -/
def thisMatch (s : String) : Option ThisUnit :=
  match afterKeywordWs "this" s with
  | none => none
  | some r =>
    match weekdayTarget r with
    | some t => some (ThisUnit.wd t)
    | none => if r == "weekend" then some ThisUnit.weekend else none

/-- The unit captured by the `in N ...` and `N ... from now` patterns. -/
inductive AmountUnit
  | day
  | week
  | month
deriving DecidableEq, Repr

/-- Unit word with optional plural `s`, as in `(days?|weeks?|months?)`. -/
def unitOf (s : String) : Option AmountUnit :=
  if s == "day" || s == "days" then some AmountUnit.day
  else if s == "week" || s == "weeks" then some AmountUnit.week
  else if s == "month" || s == "months" then some AmountUnit.month
  else none

/-- Matcher for `/^in\s+(\d+)\s+(days?|weeks?|months?)$/`. -/
def inMatch (s : String) : Option (Int × AmountUnit) :=
  match afterKeywordWs "in" s with
  | none => none
  | some r =>
    let ds := r.data.takeWhile isDigitc
    let rest := r.data.dropWhile isDigitc
    if ds.isEmpty then none
    else
      match rest with
      | [] => none
      | c :: _ =>
        if isWSc c then
          match unitOf (String.mk (rest.dropWhile isWSc)) with
          | some u => some (digitsToInt ds 0, u)
          | none => none
        else none

/-- Matcher for `/^(\d+)\s+(days?|weeks?|months?)\s+from\s+(now|today)$/`. -/
def fromNowMatch (s : String) : Option (Int × AmountUnit) :=
  let d := s.data
  let ds := d.takeWhile isDigitc
  let rest := d.dropWhile isDigitc
  if ds.isEmpty then none
  else
    match rest with
    | [] => none
    | c :: _ =>
      if isWSc c then
        let r1 := rest.dropWhile isWSc
        let uw := r1.takeWhile (fun c => !isWSc c)
        let r2 := r1.dropWhile (fun c => !isWSc c)
        match unitOf (String.mk uw) with
        | none => none
        | some u =>
          match r2 with
          | [] => none
          | c2 :: _ =>
            if isWSc c2 then
              match afterKeywordWs "from" (String.mk (r2.dropWhile isWSc)) with
              | none => none
              | some tail => if tail == "now" || tail == "today" then some (digitsToInt ds 0, u) else none
            else none
      else none

/-- Month-name prefix at the current position; yields the 0-based month index
    and the remaining characters.  At most one of the twelve names can match. -/
def monthAt (d : List Char) : Option (Int × List Char) :=
  let tryOne : String → Int → Option (Int × List Char) := fun nm i =>
    if nm.data.isPrefixOf d then some (i, d.drop nm.data.length) else none
  (tryOne "january" 0) <|> (tryOne "february" 1) <|> (tryOne "march" 2) <|>
  (tryOne "april" 3) <|> (tryOne "may" 4) <|> (tryOne "june" 5) <|>
  (tryOne "july" 6) <|> (tryOne "august" 7) <|> (tryOne "september" 8) <|>
  (tryOne "october" 9) <|> (tryOne "november" 10) <|> (tryOne "december" 11)

/-- Drops an ordinal suffix `(?:st|nd|rd|th)?` if present. -/
def ordSuffixDrop (d : List Char) : List Char :=
  if ("st".data.isPrefixOf d) || ("nd".data.isPrefixOf d) ||
     ("rd".data.isPrefixOf d) || ("th".data.isPrefixOf d) then d.drop 2 else d

/-- Optional year group `(?:\s+(\d{4}))?`: at least one whitespace and then
    four digits (further characters are not constrained, the pattern is not
    anchored). -/
def yearAfterWs (d : List Char) : Option Int :=
  match d with
  | [] => none
  | c :: _ =>
    if isWSc c then
      let ds := (d.dropWhile isWSc).takeWhile isDigitc
      if ds.length >= 4 then some (digitsToInt (ds.take 4) 0) else none
    else none

/-- Optional year group `(?:\s*,?\s*(\d{4}))?` of the month-day pattern. -/
def yearAfterComma (d : List Char) : Option Int :=
  let r1 := d.dropWhile isWSc
  let r2 :=
    match r1 with
    | ',' :: t => t.dropWhile isWSc
    | _ => r1
  let ds := r2.takeWhile isDigitc
  if ds.length >= 4 then some (digitsToInt (ds.take 4) 0) else none

/-- One attempt, at a fixed start position, of the unanchored pattern
    `/(\d{1,2})(?:st|nd|rd|th)?\s+(january|...|december)(?:\s+(\d{4}))?/`
    (greedy day: two digits are tried before one).  Yields (day, month index,
    optional year). -/
def ordinalTryAt (d : List Char) : Option (Int × Int × Option Int) :=
  let ds := d.takeWhile isDigitc
  let tryLen : Nat → Option (Int × Int × Option Int) := fun k =>
    if ds.length < k || k == 0 then none
    else
      let rest := ordSuffixDrop (d.drop k)
      match rest with
      | [] => none
      | c :: _ =>
        if isWSc c then
          match monthAt (rest.dropWhile isWSc) with
          | some (mi, rest2) => some (digitsToInt (ds.take k) 0, mi, yearAfterWs rest2)
          | none => none
        else none
  (tryLen 2) <|> (tryLen 1)

/-- Leftmost-position search with a positional matcher, as a JS unanchored
    regex performs. -/
def searchScan {a : Type} (f : List Char → Option a) : List Char → Option a
  | [] => f []
  | c :: rest =>
    match f (c :: rest) with
    | some x => some x
    | none => searchScan f rest

/-- Matcher for the unanchored ordinal-day-then-month pattern (main.ts:4912). -/
def ordinalDateMatch (s : String) : Option (Int × Int × Option Int) :=
  searchScan ordinalTryAt s.data

/-- One attempt, at a fixed start position, of the unanchored pattern
    `/(january|...|december)\s+(\d{1,2})(?:st|nd|rd|th)?(?:\s*,?\s*(\d{4}))?/`.
    Yields (month index, day, optional year). -/
def monthDayTryAt (d : List Char) : Option (Int × Int × Option Int) :=
  match monthAt d with
  | none => none
  | some (mi, r1) =>
    match r1 with
    | [] => none
    | c :: _ =>
      if isWSc c then
        let r2 := r1.dropWhile isWSc
        let ds := r2.takeWhile isDigitc
        let dayTry : Nat → Option (Int × Int × Option Int) := fun k =>
          if ds.length < k || k == 0 then none
          else some (mi, digitsToInt (ds.take k) 0, yearAfterComma (ordSuffixDrop (r2.drop k)))
        (dayTry 2) <|> (dayTry 1)
      else none

/-- Matcher for the unanchored month-then-day pattern (main.ts:4928). -/
def monthDayMatch (s : String) : Option (Int × Int × Option Int) :=
  searchScan monthDayTryAt s.data

/-- Month abbreviation prefix (moment format token `MMM`). -/
def monthAbbrevAt (d : List Char) : Option (Int × List Char) :=
  let tryOne : String → Int → Option (Int × List Char) := fun nm i =>
    if nm.data.isPrefixOf d then some (i, d.drop nm.data.length) else none
  (tryOne "jan" 0) <|> (tryOne "feb" 1) <|> (tryOne "mar" 2) <|>
  (tryOne "apr" 3) <|> (tryOne "may" 4) <|> (tryOne "jun" 5) <|>
  (tryOne "jul" 6) <|> (tryOne "aug" 7) <|> (tryOne "sep" 8) <|>
  (tryOne "oct" 9) <|> (tryOne "nov" 10) <|> (tryOne "dec" 11)

/-- Takes `lo` to `hi` digits greedily; yields the value and the rest. -/
def takeDigits (lo hi : Nat) (d : List Char) : Option (Int × List Char) :=
  let ds := d.takeWhile isDigitc
  if ds.length < lo then none
  else
    let k := min ds.length hi
    some (digitsToInt (ds.take k) 0, d.drop k)

/-- Strict parse attempt for the format `YYYY-MM-DD`. -/
def parseFmtYMD (d : List Char) : Option MDate :=
  match takeDigits 4 4 d with
  | none => none
  | some (y, r1) =>
    match r1 with
    | '-' :: r2 =>
      match takeDigits 1 2 r2 with
      | none => none
      | some (m, r3) =>
        match r3 with
        | '-' :: r4 =>
          match takeDigits 1 2 r4 with
          | none => none
          | some (dd, r5) =>
            if r5.isEmpty && validDate ⟨y, m, dd⟩ then some ⟨y, m, dd⟩ else none
        | _ => none
    | _ => none

/-- Strict parse attempt for the slash formats: first field / second field /
    four-digit year; `swap` selects DD/MM/YYYY instead of MM/DD/YYYY. -/
def parseFmtSlash (swap : Bool) (d : List Char) : Option MDate :=
  match takeDigits 1 2 d with
  | none => none
  | some (a, r1) =>
    match r1 with
    | '/' :: r2 =>
      match takeDigits 1 2 r2 with
      | none => none
      | some (b, r3) =>
        match r3 with
        | '/' :: r4 =>
          match takeDigits 4 4 r4 with
          | none => none
          | some (y, r5) =>
            let m := if swap then b else a
            let dd := if swap then a else b
            if r5.isEmpty && validDate ⟨y, m, dd⟩ then some ⟨y, m, dd⟩ else none
        | _ => none
    | _ => none

/-- Strict parse attempt for `MMM DD, YYYY` / `MMMM DD, YYYY` (month name or
    abbreviation, day, comma, year); month names compare case-insensitively,
    as moment does. -/
def parseFmtMonthName (full : Bool) (d : List Char) : Option MDate :=
  match (if full then monthAt d else monthAbbrevAt d) with
  | none => none
  | some (mi, r1) =>
    match r1 with
    | c :: r1' =>
      if isWSc c then
        match takeDigits 1 2 (r1'.dropWhile isWSc) with
        | none => none
        | some (dd, r2) =>
          match r2 with
          | ',' :: r3 =>
            match takeDigits 4 4 (r3.dropWhile isWSc) with
            | none => none
            | some (y, r4) =>
              if r4.isEmpty && validDate ⟨y, mi + 1, dd⟩ then some ⟨y, mi + 1, dd⟩ else none
          | _ => none
      else none
    | [] => none

/-- The fallback `window.moment(dateString, ['YYYY-MM-DD', 'MM/DD/YYYY',
    'DD/MM/YYYY', 'MMM DD, YYYY', 'MMMM DD, YYYY'], true)` strict parse: the
    formats are tried in order and the first valid one wins. -/
def parseStrictFormats (s : String) : Option MDate :=
  let d := (lowerStr s).data
  (parseFmtYMD d) <|> (parseFmtSlash false d) <|> (parseFmtSlash true d) <|>
  (parseFmtMonthName false d) <|> (parseFmtMonthName true d)

/-- The `next <unit>` branch (main.ts:4864-4880): for a weekday, advance a
    full week when the current weekday numeral is already >= the target, then
    set the weekday within the (resulting) week. -/
def applyNextUnit (today : MDate) (u : NextUnit) : MDate :=
  match u with
  | NextUnit.wd target =>
    let nd := if dowM today >= target then addWeeks today 1 else today
    setDow nd target
  | NextUnit.week => addWeeks today 1
  | NextUnit.month => addMonthsClamped today 1
  | NextUnit.year => addYearsClamped today 1

/-- The `this <unit>` branch (main.ts:4883-4893): weekend resolves to the
    Saturday of the current week; a weekday is set within the current week
    with no forward-rollover guard. -/
def applyThisUnit (today : MDate) (u : ThisUnit) : MDate :=
  match u with
  | ThisUnit.weekend => setDow today 6
  | ThisUnit.wd target => setDow today target

/-- The `in N units` / `N units from now` branches (main.ts:4896-4909). -/
def applyAmount (today : MDate) (k : Int) (u : AmountUnit) : MDate :=
  match u with
  | AmountUnit.day => addDays today k
  | AmountUnit.week => addWeeks today k
  | AmountUnit.month => addMonthsClamped today k

/-- The day-and-month resolution shared by the ordinal and month-day branches
    (main.ts:4913-4924 and 4929-4940): `today.clone().year(y).month(mi).date(d)`,
    then, when no explicit year was given and the result is strictly before the
    reference day, advance one year. -/
def resolveDayMonthYear (today : MDate) (d mi : Int) (yOpt : Option Int) : MDate :=
  let y := yOpt.getD today.year
  let target := setDayOfMonth (setMonthClamped (setYearClamped today y) mi) d
  match yOpt with
  | some _ => target
  | none => if dayNumber target < dayNumber today then addYearsClamped target 1 else target

/-- The bare-weekday branch (main.ts:4955-4964): set within the current week,
    and advance one week only when the result is strictly before the
    reference day (so the same day counts). -/
def bareWeekdayResolve (today : MDate) (target : Int) : MDate :=
  let t := setDow today target
  if dayNumber t < dayNumber today then addDays t 7 else t

/-- Shallow embedding of `parseNaturalDate` (the full copy, main.ts:4854-4973),
    computing the resulting date; the code formats the date of each branch
    with `.format('YYYY-MM-DD')`, which `parseNaturalDate` below applies to
    this function's result.  `baseDate` is the optional second argument; when
    absent the code reads the ambient clock `window.moment()`, passed here as
    `now`. -/
def parseNaturalDateD (dateString : String) (baseDate : Option MDate) (now : MDate) :
    Option MDate :=
  let today := baseDate.getD now
  let n := trimStr (lowerStr dateString)
  if n == "today" || n == "tonight" then some today
  else if n == "tomorrow" then some (addDays today 1)
  else if n == "yesterday" then some (addDays today (-1))
  else
    match nextMatch n with
    | some u => some (applyNextUnit today u)
    | none =>
    match thisMatch n with
    | some u => some (applyThisUnit today u)
    | none =>
    match inMatch n with
    | some (k, u) => some (applyAmount today k u)
    | none =>
    match fromNowMatch n with
    | some (k, u) => some (applyAmount today k u)
    | none =>
    match ordinalDateMatch n with
    | some (d, mi, yOpt) => some (resolveDayMonthYear today d mi yOpt)
    | none =>
    match monthDayMatch n with
    | some (mi, d, yOpt) => some (resolveDayMonthYear today d mi yOpt)
    | none =>
    if n == "end of week" || n == "eow" then some (endOfWeek today)
    else if n == "end of month" || n == "eom" then some (endOfMonth today)
    else if n == "end of year" || n == "eoy" then some (endOfYear today)
    else
    match weekdayTarget n with
    | some t => some (bareWeekdayResolve today t)
    | none => parseStrictFormats dateString

/-- The full `parseNaturalDate` (main.ts:4854): ISO string result. -/
def parseNaturalDate (dateString : String) (baseDate : Option MDate) (now : MDate) :
    Option String :=
  (parseNaturalDateD dateString baseDate now).map formatYMD

/-- Shallow embedding of the truncated first copy of `parseNaturalDate`
    (main.ts:2893-2928): only the literal relative words, the `next` pattern
    and the strict-format fallback. -/
def parseNaturalDateV1D (dateString : String) (baseDate : Option MDate) (now : MDate) :
    Option MDate :=
  let today := baseDate.getD now
  let n := trimStr (lowerStr dateString)
  if n == "today" || n == "tonight" then some today
  else if n == "tomorrow" then some (addDays today 1)
  else if n == "yesterday" then some (addDays today (-1))
  else
    match nextMatch n with
    | some u => some (applyNextUnit today u)
    | none => parseStrictFormats dateString

/-- The first-copy `parseNaturalDate` (main.ts:2893): ISO string result. -/
def parseNaturalDateV1 (dateString : String) (baseDate : Option MDate) (now : MDate) :
    Option String :=
  (parseNaturalDateV1D dateString baseDate now).map formatYMD

/-- Dates attached to a task record.  The code stores them in a string-keyed
    object whose only possible keys are `due`, `scheduled` and `start` (and
    leaves the object `undefined` when empty, which the formatter treats the
    same as an object with no keys). -/
structure TaskDates where
  due : Option String
  scheduled : Option String
  start : Option String
deriving DecidableEq, Repr

/-- The task record produced by `parseTasksForObsidianTasks` (main.ts:2768):
    `{ text, priority, tags, dates }`. -/
structure TaskRecord where
  text : String
  priority : String
  tags : List String
  dates : TaskDates
deriving DecidableEq, Repr

/-- Case-insensitive prefix test (for the `/i` patterns). -/
def startsWithCI (p d : List Char) : Bool :=
  (p.map Char.toLower).isPrefixOf (d.map Char.toLower)

/-- Removes the first occurrence of `pat` (JS `str.replace(pat, '')` with a
    plain-string first argument replaces only the first occurrence, searching
    from the start of the string). -/
def removeFirstOcc (pat : List Char) : List Char → List Char
  | [] => []
  | c :: rest =>
    if pat.isPrefixOf (c :: rest) then (c :: rest).drop pat.length
    else c :: removeFirstOcc pat rest

/-- String wrapper for `removeFirstOcc`. -/
def replaceFirst (s pat : String) : String := String.mk (removeFirstOcc pat.data s.data)

/-- Matcher for the checkbox pattern `/^-\s*\[\s*\]\s*(.+)/` (main.ts:3027),
    returning the capture.  When `\s*` has consumed the whole tail the engine
    backtracks one character so that `(.+)` can still match. -/
def checkboxCapture (s : String) : Option String :=
  match s.data with
  | '-' :: r1 =>
    match r1.dropWhile isWSc with
    | '[' :: r2 =>
      match r2.dropWhile isWSc with
      | ']' :: r3 =>
        let r4 := r3.dropWhile isWSc
        if r4.isEmpty then
          if r3.isEmpty then none else some (String.mk (r3.drop (r3.length - 1)))
        else some (String.mk r4)
      | _ => none
    | _ => none
  | _ => none

/-- The priority-marker test and strip shared by both task extractors
    (main.ts:2789-2798 and 3045-3054): `/^!!!|^HIGH:/i` then `/^!!|^MEDIUM:/i`
    then `/^!|^LOW:/i`, longest first; returns the glyph (without trailing
    space) and the stripped, trimmed text. -/
def priorityMark (t : String) : String × String :=
  let d := t.data
  if "!!!".data.isPrefixOf d then ("⏫", trimStr (String.mk (d.drop 3)))
  else if startsWithCI "high:".data d then ("⏫", trimStr (String.mk (d.drop 5)))
  else if "!!".data.isPrefixOf d then ("🔼", trimStr (String.mk (d.drop 2)))
  else if startsWithCI "medium:".data d then ("🔼", trimStr (String.mk (d.drop 7)))
  else if "!".data.isPrefixOf d then ("🔽", trimStr (String.mk (d.drop 1)))
  else if startsWithCI "low:".data d then ("🔽", trimStr (String.mk (d.drop 4)))
  else ("", t)

/-- Lookahead `(?=\s*(?:STOP1|STOP2|$))` of the `DUE:`-family patterns. -/
def stopLookahead (stops : List (List Char)) (d : List Char) : Bool :=
  let r := d.dropWhile isWSc
  r.isEmpty || stops.any (fun st => startsWithCI st r)

/-- The lazy capture loop of `([^,\s]+(?:\s+[^,\s]+)*?)`: starting from the
    first token, keep appending `\s+`-separated comma-free tokens until the
    stop lookahead holds; fails when the lookahead never holds and no further
    token can be consumed. -/
def tokensLoop (stops : List (List Char)) : Nat → List Char → List Char →
    Option (List Char × List Char)
  | 0, _, _ => none
  | fuel + 1, acc, rest =>
    if stopLookahead stops rest then some (acc, rest)
    else
      let ws := rest.takeWhile isWSc
      if ws.isEmpty then none
      else
        let r2 := rest.drop ws.length
        let tok := r2.takeWhile (fun c => !(isWSc c) && c != ',')
        if tok.isEmpty then none
        else tokensLoop stops fuel (acc ++ ws ++ tok) (r2.drop tok.length)

/-- One attempt, at a fixed position, of
    `/\bMARKER\s*([^,\s]+(?:\s+[^,\s]+)*?)(?=\s*(?:STOP1|STOP2|$))/i`
    (the `\b` is checked by the caller); returns the full matched text and the
    captured phrase, in original case. -/
def markerTryAt (marker : List Char) (stops : List (List Char)) (d : List Char) :
    Option (List Char × List Char) :=
  if startsWithCI marker d then
    let afterM := d.drop marker.length
    let ws := afterM.takeWhile isWSc
    let r := afterM.drop ws.length
    let tok1 := r.takeWhile (fun c => !(isWSc c) && c != ',')
    if tok1.isEmpty then none
    else
      match tokensLoop stops (r.length + 1) tok1 (r.drop tok1.length) with
      | some (phrase, _) => some (d.take marker.length ++ ws ++ phrase, phrase)
      | none => none
  else none

/-- Left-to-right scan for the `DUE:`-family patterns, enforcing the leading
    word boundary `\b`. -/
def markerSearch (marker : List Char) (stops : List (List Char)) :
    Option Char → List Char → Option (List Char × List Char)
  | _, [] => none
  | prev, c :: rest =>
    let bOk := match prev with
      | none => true
      | some p => !isWordc p
    match (if bOk then markerTryAt marker stops (c :: rest) else none) with
    | some r => some r
    | none => markerSearch marker stops (some c) rest

/-- One date-role extraction step of `processExtractedTasks`
    (main.ts:3057-3082): when the marker matches and its phrase parses, the
    date is recorded and the matched text is removed (and the text trimmed);
    otherwise the text is left untouched and no date is recorded.  The phrase
    is handed to the first-copy `parseNaturalDate` with no base date, so the
    ambient clock `now` is the reference. -/
def dateStepPE (marker : List Char) (stops : List (List Char)) (now : MDate)
    (t : String) : String × Option String :=
  match markerSearch marker stops none t.data with
  | none => (t, none)
  | some (m0, phrase) =>
    match parseNaturalDateV1 (String.mk phrase) none now with
    | none => (t, none)
    | some iso => (trimStr (replaceFirst t (String.mk m0)), some iso)

/-- Fueled single pass implementing both `taskText.match(/#[\w-]+/g)` and
    `taskText.replace(/#[\w-]+/g, '')`: collects the hashtag tokens in order
    and returns the text with them removed. -/
def tagScanF : Nat → List Char → List String × List Char
  | 0, d => ([], d)
  | fuel + 1, d =>
    match d with
    | [] => ([], [])
    | c :: rest =>
      if c == '#' then
        let tok := rest.takeWhile isTagChar
        if tok.isEmpty then
          let r := tagScanF fuel rest
          (r.1, c :: r.2)
        else
          let r := tagScanF fuel (rest.drop tok.length)
          (("#" ++ String.mk tok) :: r.1, r.2)
      else
        let r := tagScanF fuel rest
        (r.1, c :: r.2)

/-- The hashtag-extraction step (main.ts:2830-2835): when at least one tag
    matches, the tags are collected and stripped from the text (which is then
    trimmed); with no match the text is left exactly as it was. -/
def extractTags (t : String) : List String × String :=
  let r := tagScanF t.data.length t.data
  if r.1.isEmpty then ([], t) else (r.1, trimStr (String.mk r.2))

/-- JS `[...new Set(tags)]`: deduplication keeping first occurrences. -/
def dedupFirstAux (seen : List String) : List String → List String
  | [] => []
  | x :: xs =>
    if seen.contains x then dedupFirstAux seen xs
    else x :: dedupFirstAux (x :: seen) xs

/-- JS `[...new Set(tags)]`. -/
def dedupFirst (l : List String) : List String := dedupFirstAux [] l

/-- Normalization of the configured default tags (main.ts:2839-2842 and
    3013-3016): split on commas, trim, and prefix `#` when absent. -/
def defaultTagList (defaultTaskTags : String) : List String :=
  (splitChar ',' defaultTaskTags).map (fun t =>
    let tg := trimStr t
    if startsWithStr "#" tg then tg else "#" ++ tg)

/-- Trailing cleanup `taskText.replace(/[,\-]+$/, '').trim()` (main.ts:2847). -/
def dropTrailingPunct (s : String) : String :=
  trimStr (String.mk ((s.data.reverse.dropWhile (fun c => c == ',' || c == '-')).reverse))

/-- Bullet strip `/^[-*•]\s*/` of `parseTasksForObsidianTasks` (main.ts:2786). -/
def stripBullet (t : String) : String :=
  match t.data with
  | c :: rest =>
    if c == '-' || c == '*' || c == '•' then String.mk (rest.dropWhile isWSc) else t
  | [] => t

/-- Lookahead `(?=\s*[-,]|\s*$)` of the inline by/due-style date patterns. -/
def phraseLookahead (d : List Char) : Bool :=
  match d.dropWhile isWSc with
  | [] => true
  | c :: _ => c == '-' || c == ','

/-- The literal alternatives of the inline date patterns' capture group. -/
def literalDateWords : List String :=
  ["tomorrow", "today", "monday", "tuesday", "wednesday", "thursday", "friday",
   "saturday", "sunday"]

/-- Tries the literal word alternatives (case-insensitively, capture in
    original case), each subject to the trailing lookahead. -/
def tryWordsCI : List String → List Char → Option (List Char)
  | [], _ => none
  | w :: ws, d =>
    if startsWithCI w.data d && phraseLookahead (d.drop w.data.length) then
      some (d.take w.data.length)
    else tryWordsCI ws d

/-- The `next\s+\w+` alternative of the inline date patterns. -/
def tryNextPhrase (d : List Char) : Option (List Char) :=
  if startsWithCI "next".data d then
    let r := d.drop 4
    let ws := r.takeWhile isWSc
    if ws.isEmpty then none
    else
      let r2 := r.drop ws.length
      let word := r2.takeWhile isWordc
      if word.isEmpty then none
      else if phraseLookahead (r2.drop word.length) then
        some (d.take (4 + ws.length + word.length))
      else none
  else none

/-- Lazy search for the shortest `[\w\s]+?` prefix satisfying the lookahead. -/
def lazyFind (d : List Char) : Nat → Nat → Option (List Char)
  | _, 0 => none
  | k, remaining + 1 =>
    if phraseLookahead (d.drop k) then some (d.take k)
    else lazyFind d (k + 1) remaining

/-- The lazy `[\w\s]+?` alternative of the inline date patterns. -/
def tryLazyRun (d : List Char) : Option (List Char) :=
  let run := (d.takeWhile (fun c => isWordc c || isWSc c)).length
  if run == 0 then none else lazyFind d 1 run

/-- The capture group
    `(tomorrow|today|monday|...|sunday|next\s+\w+|[\w\s]+?)` with its
    trailing lookahead `(?=\s*[-,]|\s*$)`, alternatives tried in order. -/
def phraseAlternatives (d : List Char) : Option (List Char) :=
  match tryWordsCI literalDateWords d with
  | some r => some r
  | none =>
    match tryNextPhrase d with
    | some r => some r
    | none => tryLazyRun d

/-- One attempt, at a fixed position, of the inline pattern
    `/\b(?:KW1|KW2|...)\s+(capture)(?=\s*[-,]|\s*$)/i`, trying the keyword
    alternatives in order with full backtracking. -/
def inlineKwTry : List String → List Char → Option (List Char × List Char)
  | [], _ => none
  | kw :: kws, d =>
    let attempt :=
      if startsWithCI kw.data d then
        let r := d.drop kw.data.length
        let ws := r.takeWhile isWSc
        if ws.isEmpty then none
        else
          match phraseAlternatives (r.drop ws.length) with
          | some cap => some (d.take kw.data.length ++ ws ++ cap, cap)
          | none => none
      else none
    match attempt with
    | some r => some r
    | none => inlineKwTry kws d

/-- Left-to-right scan for the inline date patterns, enforcing `\b`. -/
def inlineKwSearch (kws : List String) :
    Option Char → List Char → Option (List Char × List Char)
  | _, [] => none
  | prev, c :: rest =>
    let bOk := match prev with
      | none => true
      | some p => !isWordc p
    match (if bOk then inlineKwTry kws (c :: rest) else none) with
    | some r => some r
    | none => inlineKwSearch kws (some c) rest

/-- One date-role extraction step of `parseTasksForObsidianTasks`
    (main.ts:2801-2826): same structure as `dateStepPE`, with the inline
    keyword patterns. -/
def inlineDateStep (kws : List String) (now : MDate) (t : String) :
    String × Option String :=
  match inlineKwSearch kws none t.data with
  | none => (t, none)
  | some (m0, cap) =>
    match parseNaturalDateV1 (String.mk cap) none now with
    | none => (t, none)
    | some iso => (trimStr (replaceFirst t (String.mk m0)), some iso)

/-- Stage one of the `parseTasksForObsidianTasks` line pipeline
    (main.ts:2775-2798): trim, strip bullet, strip priority; yields the glyph
    and the remaining text. -/
def taskLineAfterPriority (line : String) : String × String :=
  priorityMark (stripBullet (trimStr line))

/-- The due extraction step of the line pipeline (main.ts:2801-2808). -/
def taskLineStep1 (now : MDate) (line : String) : String × Option String :=
  inlineDateStep ["by", "due"] now (taskLineAfterPriority line).2

/-- The scheduled extraction step of the line pipeline (main.ts:2810-2817). -/
def taskLineStep2 (now : MDate) (line : String) : String × Option String :=
  inlineDateStep ["scheduled", "on"] now (taskLineStep1 now line).1

/-- The start extraction step of the line pipeline (main.ts:2819-2826). -/
def taskLineStep3 (now : MDate) (line : String) : String × Option String :=
  inlineDateStep ["start", "begin", "starting"] now (taskLineStep2 now line).1

/-- The hashtag extraction step of the line pipeline (main.ts:2828-2835). -/
def taskLineTags (now : MDate) (line : String) : List String × String :=
  extractTags (taskLineStep3 now line).1

/-- The final text of a task line, after the trailing-punctuation cleanup
    (main.ts:2847). -/
def taskLineText (now : MDate) (line : String) : String :=
  dropTrailingPunct (taskLineTags now line).2

/-- The per-line pipeline of `parseTasksForObsidianTasks` (main.ts:2774-2857):
    trim, strip bullet, strip priority, extract the three date roles, extract
    hashtags, append default tags, strip trailing punctuation; yields the
    record, or nothing when the line is empty or nothing remains. -/
def parseTaskLine (defaultTaskTags : String) (now : MDate) (line : String) :
    Option TaskRecord :=
  if trimStr line == "" then none
  else if taskLineText now line == "" then none
  else
    some ⟨taskLineText now line, (taskLineAfterPriority line).1,
          dedupFirst ((taskLineTags now line).1 ++
            (if defaultTaskTags == "" then [] else defaultTagList defaultTaskTags)),
          ⟨(taskLineStep1 now line).2, (taskLineStep2 now line).2,
           (taskLineStep3 now line).2⟩⟩

/-- One step of the `parseTasksForObsidianTasks` line loop. -/
def taskFoldStep (defaultTaskTags : String) (now : MDate)
    (acc : List TaskRecord) (line : String) : List TaskRecord :=
  match parseTaskLine defaultTaskTags now line with
  | some r => acc ++ [r]
  | none => acc

/-- Shallow embedding of `parseTasksForObsidianTasks` (main.ts:2768-2862):
    `parseTaskLine` applied to each line of the content, keeping the records
    in line order. -/
def parseTasksForObsidianTasks (defaultTaskTags : String) (now : MDate)
    (content : String) : List TaskRecord :=
  (splitChar '\n' content).foldl (taskFoldStep defaultTaskTags now) []

/-- Shallow embedding of `formatTaskForObsidianTasks` (main.ts:2864-2891).
    `taskPriorities` is `settings.taskPriorities` and `now` the ambient clock
    used for the creation stamp. -/
def formatTaskForObsidianTasks (taskPriorities : Bool) (now : MDate)
    (task : TaskRecord) : String :=
  let f0 := "- [ ] "
  let f1 := if taskPriorities && task.priority != "" then f0 ++ task.priority ++ " " else f0
  let f2 := f1 ++ task.text
  let f3 := match task.dates.due with
    | some d => f2 ++ " 📅 " ++ d
    | none => f2
  let f4 := match task.dates.scheduled with
    | some d => f3 ++ " ⏳ " ++ d
    | none => f3
  let f5 := match task.dates.start with
    | some d => f4 ++ " 🛫 " ++ d
    | none => f4
  let f6 := f5 ++ " ➕ " ++ formatYMD now
  if task.tags.length > 0 then f6 ++ " " ++ joinWith " " task.tags else f6

/-- Shallow embedding of `processExtractedTasks` (main.ts:2999-3100), which
    rewrites a `### Tasks` section body line by line into checkbox items with
    priority glyph, date glyphs, creation stamp and the default tags.
    `defaultTaskTags` is `settings.defaultTaskTags`; `now` is the ambient
    clock (used both for the creation stamp and, through the one-argument
    `parseNaturalDate` calls, as the date-phrase reference). -/
def processExtractedTasks (defaultTaskTags : String) (now : MDate)
    (tasksSection : String) : String :=
  if tasksSection == "" || trimStr (lowerStr tasksSection) == "none identified." then
    "None identified."
  else
    let creationDate := formatYMD now
    let defaultTags :=
      if defaultTaskTags == "" then ""
      else " " ++ joinWith " " (defaultTagList defaultTaskTags)
    let processed := (splitChar '\n' tasksSection).foldl
      (fun acc line =>
        let trimmed := trimStr line
        if trimmed == "" then acc
        else
          let taskText :=
            match checkboxCapture trimmed with
            | some cap => cap
            | none =>
              if startsWithStr "-" trimmed || startsWithStr "*" trimmed then
                trimStr (String.mk ((trimmed.data.drop 1).dropWhile isWSc))
              else if !(startsWithStr "#" trimmed) && trimmed.length > 0 then trimmed
              else ""
          if taskText == "" then acc
          else
            let (prio, t1) := priorityMark taskText
            let priority := if prio == "" then "" else prio ++ " "
            let (t2, dueD) := dateStepPE "due:".data ["scheduled:".data, "start:".data] now t1
            let (t3, schedD) := dateStepPE "scheduled:".data ["due:".data, "start:".data] now t2
            let (t4, startD) := dateStepPE "start:".data ["due:".data, "scheduled:".data] now t3
            let f0 := "- [ ] " ++ priority ++ t4
            let f1 := match dueD with
              | some d => f0 ++ " 📅 " ++ d
              | none => f0
            let f2 := match schedD with
              | some d => f1 ++ " ⏳ " ++ d
              | none => f1
            let f3 := match startD with
              | some d => f2 ++ " 🛫 " ++ d
              | none => f2
            acc ++ [f3 ++ " ➕ " ++ creationDate ++ defaultTags])
      []
    joinWith "\n" processed

/-- An action-table entry (`TriggerAction` interface, main.ts:24). -/
structure TriggerAction where
  keyword : String
  action : String
  requiresList : Bool
  enabled : Bool
deriving DecidableEq, Repr

/-- A detected trigger: `{ trigger, content, action }` (main.ts:3142). -/
structure TriggerHit where
  trigger : String
  content : String
  action : TriggerAction
deriving DecidableEq, Repr

/-- The `<u>([\w\s]+)</u>` alternative of the underline pattern (with the
    `/i` flag); the group cannot contain `<`, so no backtracking is needed. -/
def matchWrapU (d : List Char) : Option (List Char × List Char) :=
  if startsWithCI "<u>".data d then
    let r := d.drop 3
    let grp := r.takeWhile (fun c => isWordc c || isWSc c)
    if grp.isEmpty then none
    else if startsWithCI "</u>".data (r.drop grp.length) then
      some (grp, r.drop (grp.length + 4))
    else none
  else none

/-- Greedy backtracking for `([\w\s]+)__`: the longest group (of the given
    candidate length downwards) followed by a closing `__` wins. -/
def uuTry (r : List Char) : Nat → Option (List Char × List Char)
  | 0 => none
  | k + 1 =>
    if "__".data.isPrefixOf (r.drop (k + 1)) then some (r.take (k + 1), r.drop (k + 3))
    else uuTry r k

/-- The `__([\w\s]+)__` alternative of the underline pattern. -/
def matchWrapUU (d : List Char) : Option (List Char × List Char) :=
  if "__".data.isPrefixOf d then
    let r := d.drop 2
    uuTry r (r.takeWhile (fun c => isWordc c || isWSc c)).length
  else none

/-- The separator `\s*:?\s*` after the underline wrapper. -/
def sepSkip (d : List Char) : List Char :=
  match d.dropWhile isWSc with
  | ':' :: t => t.dropWhile isWSc
  | r => r

/-- The content lookahead `(?=(?:<u>|__|\n\n|$))`. -/
def contentLookahead (d : List Char) : Bool :=
  d.isEmpty || startsWithCI "<u>".data d || "__".data.isPrefixOf d ||
    "\n\n".data.isPrefixOf d

/-- Lazy content capture `([\s\S]*?)` up to the first position where the
    lookahead holds (which always happens at the end of input). -/
def contentGo (d : List Char) (k : Nat) : Nat → List Char × List Char
  | 0 => (d, [])
  | fuel + 1 =>
    if contentLookahead (d.drop k) then (d.take k, d.drop k)
    else contentGo d (k + 1) fuel

/-- Splits off the lazily captured content. -/
def contentSplit (d : List Char) : List Char × List Char :=
  contentGo d 0 (d.length + 1)

/-- One attempt, at a fixed position, of the underline pattern
    `/(?:<u>([\w\s]+)<\/u>|__([\w\s]+)__)\s*:?\s*([\s\S]*?)(?=(?:<u>|__|\n\n|$))/gi`
    (main.ts:3144): yields the underlined group, the content, and the
    remaining input after the match. -/
def underlineTryAt (d : List Char) : Option (List Char × List Char × List Char) :=
  match (matchWrapU d) <|> (matchWrapUU d) with
  | none => none
  | some (grp, after) =>
    let (content, rest) := contentSplit (sepSkip after)
    some (grp, content, rest)

/-- The global `exec` loop over the underline pattern: repeated leftmost
    matches, each search resuming at the end of the previous match. -/
def underlineScanF : Nat → List Char → List (List Char × List Char)
  | 0, _ => []
  | fuel + 1, d =>
    match d with
    | [] => []
    | c :: rest =>
      match underlineTryAt (c :: rest) with
      | some (grp, content, after) => (grp, content) :: underlineScanF fuel after
      | none => underlineScanF fuel rest

/-- Matcher for the translate special case `/^Translate\s+(?:to|into)\s+(\w+)$/i`
    (main.ts:3149), returning the captured target language. -/
def translateMatch (u : String) : Option String :=
  let d := u.data
  if startsWithCI "translate".data d then
    let r := d.drop 9
    let ws := r.takeWhile isWSc
    if ws.isEmpty then none
    else
      let r2 := r.drop ws.length
      match
        (if startsWithCI "to".data r2 then some (r2.drop 2)
         else if startsWithCI "into".data r2 then some (r2.drop 4) else none) with
      | none => none
      | some r3 =>
        let ws2 := r3.takeWhile isWSc
        if ws2.isEmpty then none
        else
          let r4 := r3.drop ws2.length
          let word := r4.takeWhile isWordc
          if !word.isEmpty && (r4.drop word.length).isEmpty then some (String.mk word)
          else none
  else none

/-- JS `underlinedText.split(/\s+/)[0]` on an already-trimmed string. -/
def firstWordOf (u : String) : String :=
  String.mk (u.data.takeWhile (fun c => !isWSc c))

/-- Shallow embedding of `detectTriggerWords` (main.ts:3142-3169): scans for
    underline-marked spans; a span matching the translate special case is
    routed to the enabled `translate` action with a derived keyword, any other
    span is matched case-insensitively by its first word against the enabled
    entries of the action table. -/
def detectTriggerWords (actions : List TriggerAction) (text : String) :
    List TriggerHit :=
  (underlineScanF text.data.length text.data).foldl
    (fun acc p =>
      let underlined := trimStr (String.mk p.1)
      let content := trimStr (String.mk p.2)
      match translateMatch underlined with
      | some lang =>
        match actions.find? (fun a => a.action == "translate" && a.enabled) with
        | some ta =>
          acc ++ [⟨"Translate to " ++ lang, content,
                  { ta with keyword := "Translate to " ++ lang }⟩]
        | none => acc
      | none =>
        let fw := firstWordOf underlined
        match actions.find? (fun a => lowerStr a.keyword == lowerStr fw && a.enabled) with
        | some a => acc ++ [⟨fw, content, a⟩]
        | none => acc)
    []

/-- The contribution of one scanned span to `detectTriggerWords`' output: the
    body of the scanner loop (main.ts:3147-3166) as a per-span function — a
    translate-matching span is routed to the enabled translate entry with the
    derived keyword, any other span to the entry matching its first word. -/
def spanTrigger (actions : List TriggerAction) (p : List Char × List Char) :
    Option TriggerHit :=
  let underlined := trimStr (String.mk p.1)
  let content := trimStr (String.mk p.2)
  match translateMatch underlined with
  | some lang =>
    (actions.find? (fun a => a.action == "translate" && a.enabled)).map
      (fun ta => ⟨"Translate to " ++ lang, content,
                  { ta with keyword := "Translate to " ++ lang }⟩)
  | none =>
    (actions.find? (fun a =>
        lowerStr a.keyword == lowerStr (firstWordOf underlined) && a.enabled)).map
      (fun a => ⟨firstWordOf underlined, content, a⟩)

/-- Outcome of one external Gemini call (`requestUrl` in
    `processTriggerWithGemini`): a response with text, a response without the
    expected text field, or a thrown error. -/
inductive CallResult
  | ok (text : String)
  | noText
  | fail
deriving DecidableEq, Repr

/-- Shallow embedding of `processTriggerWithGemini` (main.ts:3171-3212) with
    the external call injected: a successful call is wrapped under
    `### <keyword> Results`, a thrown error is caught and replaced by the
    `### <keyword> - Processing Failed` placeholder, and a response without
    text yields the empty string. -/
def processTriggerWithGemini (call : TriggerHit → CallResult) (t : TriggerHit) :
    String :=
  match call t with
  | CallResult.ok txt => "### " ++ t.trigger ++ " Results\n" ++ txt
  | CallResult.noText => ""
  | CallResult.fail =>
    "### " ++ t.trigger ++ " - Processing Failed\nCould not process this trigger action."

/-- JS `content.split('\n').filter(t => t.trim()).length` (main.ts:2676). -/
def countNonEmptyLines (content : String) : Nat :=
  ((splitChar '\n' content).filter (fun t => trimStr t != "")).length

/-- The placeholder pushed for an already-filed Tasks trigger (main.ts:2676). -/
def tasksPlaceholder (tasksNotePath content : String) : String :=
  "### Tasks\n✅ " ++ toString (countNonEmptyLines content) ++ " tasks added to [[" ++
    replaceFirst tasksNotePath ".md" ++ "]]"

/-- The settings consulted by `processTriggersInText`. -/
structure TriggerSettings where
  triggerActions : List TriggerAction
  enableTasksIntegration : Bool
  tasksNotePath : String

/-- The dispatch loop of `processTriggersInText` (main.ts:2673-2692): per
    trigger, an already-filed Tasks trigger yields its placeholder, a
    `taglinks`/`related` trigger yields the injected related-notes result, and
    every other trigger goes through `processTriggerWithGemini`, its response
    pushed when nonempty. -/
def collectTriggerResponses (call : TriggerHit → CallResult) (relatedOut : String)
    (processedTasks : Bool) (tasksNotePath : String) : List TriggerHit → List String
  | [] => []
  | t :: ts =>
    let rest := collectTriggerResponses call relatedOut processedTasks tasksNotePath ts
    if t.action.keyword == "Tasks" && processedTasks then
      tasksPlaceholder tasksNotePath t.content :: rest
    else if t.action.action == "taglinks" || t.action.action == "related" then
      relatedOut :: rest
    else
      let r := processTriggerWithGemini call t
      if r != "" then r :: rest else rest

/-- Shallow embedding of `processTriggersInText` (main.ts:2651-2698) with the
    external collaborators injected: `call` performs one Gemini call,
    `addTasksCount` stands for `addTasksToTasksNote` (returning how many tasks
    it filed), and `relatedOut` is the related-notes block the
    `taglinks`/`related` path produces.  When any responses were collected
    they are appended under a `## Triggered Actions` heading; otherwise the
    text passes through unchanged. -/
def processTriggersInText (st : TriggerSettings) (call : TriggerHit → CallResult)
    (addTasksCount : String → Nat) (relatedOut : String) (text : String) : String :=
  let triggers := detectTriggerWords st.triggerActions text
  let processedTasks :=
    match triggers.find? (fun t => t.action.keyword == "Tasks") with
    | some tt => st.enableTasksIntegration && addTasksCount tt.content > 0
    | none => false
  if triggers.isEmpty then text
  else
    let rs := collectTriggerResponses call relatedOut processedTasks st.tasksNotePath triggers
    if !rs.isEmpty then
      text ++ "\n\n---\n## Triggered Actions\n\n" ++ joinWith "\n\n" rs
    else text

/-- A child of the watched folder as the monitor sees it (`TFile`): name,
    vault path, creation time `stat.ctime`, and whether it is a file at all
    (the `instanceof TFile` test). -/
structure MonFile where
  name : String
  path : String
  ctime : Int
  isFile : Bool
deriving DecidableEq, Repr

/-- The monitor state the code keeps: the persisted
    `settings.folderMonitor.lastProcessedTime` and the in-session
    `processedFiles` set (kept as a list in insertion order). -/
structure MonState where
  lastProcessedTime : Int
  processedFiles : List String
deriving DecidableEq, Repr

/-- An atom of the compiled file pattern: `*` and `?` become wildcards and
    every other character is literal (the code escapes the regex
    metacharacters first, so they all match themselves). -/
inductive GlobAtom
  | lit (c : Char)
  | star
  | anyOne
deriving DecidableEq, Repr

/-- Compilation of `settings.filePattern` (main.ts:597-600). -/
def compileGlob (p : String) : List GlobAtom :=
  p.data.map (fun c =>
    if c == '*' then GlobAtom.star
    else if c == '?' then GlobAtom.anyOne
    else GlobAtom.lit c)

/-- Anchored match of the compiled pattern followed by `\.(png|pdf)$`
    (both sides already lowered for the `/i` flag); `star` matches any run
    with backtracking. -/
def matchAtomsF : Nat → List GlobAtom → List Char → Bool
  | 0, _, _ => false
  | fuel + 1, atoms, s =>
    match atoms, s with
    | [], rest => rest == ".png".data || rest == ".pdf".data
    | GlobAtom.lit c :: as, r :: rs => c == r && matchAtomsF fuel as rs
    | GlobAtom.lit _ :: _, [] => false
    | GlobAtom.anyOne :: as, _ :: rs => matchAtomsF fuel as rs
    | GlobAtom.anyOne :: _, [] => false
    | GlobAtom.star :: as, rs =>
      matchAtomsF fuel as rs ||
        (match rs with
         | [] => false
         | _ :: rs' => matchAtomsF fuel (GlobAtom.star :: as) rs')

/-- The regex test `new RegExp('^' + regexPattern + '\\.(png|pdf)$', 'i')`
    applied to a file name (main.ts:602-607). -/
def matchesMonPattern (filePattern name : String) : Bool :=
  matchAtomsF (2 * (filePattern.length + name.length) + 2)
    (compileGlob (lowerStr filePattern)) (lowerStr name).data

/-- Shallow embedding of `FolderMonitor.getMatchingFiles` (main.ts:591-626):
    a child is kept iff it is a file, its name matches the compiled pattern,
    its creation time is strictly greater than `lastProcessedTime`, and its
    path is not in the session set. -/
def getMatchingFiles (filePattern : String) (st : MonState)
    (children : List MonFile) : List MonFile :=
  children.filter (fun f =>
    f.isFile && matchesMonPattern filePattern f.name &&
    !(f.ctime <= st.lastProcessedTime) && !(st.processedFiles.contains f.path))

/-- Effect of one iteration of the `processFiles` loop (main.ts:640-674) on
    the session set: when the per-file processing step succeeds the path is
    added (the later move/delete step runs after the add, so its failure
    cannot undo it); when it throws, the error is caught and the set is left
    alone. -/
def processFilesDedup (procOk : MonFile → Bool) (dedup : List String)
    (f : MonFile) : List String :=
  if procOk f then (if dedup.contains f.path then dedup else dedup ++ [f.path])
  else dedup

/-- Shallow embedding of `FolderMonitor.processFiles` (main.ts:628-687) on the
    monitor state, with the per-file pipeline and the post-action injected as
    success predicates (`procOk` for `processImageFile`/`processPdfFile`,
    `moveOk` for `handleProcessedFile`); after the whole batch,
    `lastProcessedTime` is set to the current time `now` (main.ts:677). -/
def processFiles (procOk moveOk : MonFile → Bool) (st : MonState)
    (files : List MonFile) (now : Int) : MonState :=
  { lastProcessedTime := now,
    processedFiles := files.foldl (processFilesDedup procOk) st.processedFiles }

/-- Session sets after each iteration of the `processFiles` loop. -/
def processFilesTraceAux (procOk : MonFile → Bool) (dedup : List String) :
    List MonFile → List (List String)
  | [] => []
  | f :: fs =>
    let d' := processFilesDedup procOk dedup f
    d' :: processFilesTraceAux procOk d' fs

/-- The monitor states observable after each iteration of the `processFiles`
    loop: the loop body never writes `lastProcessedTime` (the code assigns it
    once, after the loop), so every intermediate state carries the initial
    cutoff. -/
def processFilesTrace (procOk : MonFile → Bool) (st : MonState)
    (files : List MonFile) : List MonState :=
  (processFilesTraceAux procOk st.processedFiles files).map
    (fun d => ⟨st.lastProcessedTime, d⟩)

/-- The weekday name at a given numeral of the JS lookup list
    `['sunday','monday','tuesday','wednesday','thursday','friday','saturday']`. -/
def weekdayName (k : Int) : String :=
  if k == 0 then "sunday" else if k == 1 then "monday" else if k == 2 then "tuesday"
  else if k == 3 then "wednesday" else if k == 4 then "thursday"
  else if k == 5 then "friday" else "saturday"

/-- The default action table `DEFAULT_TRIGGER_ACTIONS` (main.ts:59-77). -/
def defaultTriggerActions : List TriggerAction :=
  [⟨"Research", "research", true, true⟩, ⟨"Expand", "expand", false, true⟩,
   ⟨"Summarize", "summarize", false, true⟩, ⟨"Summarise", "summarize", false, true⟩,
   ⟨"Actions", "actions", false, true⟩, ⟨"Tasks", "tasks", true, true⟩,
   ⟨"Analyze", "analyze", false, true⟩, ⟨"Analyse", "analyze", false, true⟩,
   ⟨"Define", "define", true, true⟩, ⟨"Translate", "translate", false, true⟩,
   ⟨"Rewrite", "rewrite", false, true⟩, ⟨"Questions", "questions", false, true⟩,
   ⟨"Connect", "connect", false, true⟩, ⟨"Organise", "organize", false, true⟩,
   ⟨"Organize", "organize", false, true⟩, ⟨"TagLinks", "taglinks", false, true⟩,
   ⟨"Related", "related", false, true⟩]

/-- Spec-side (section 4.4 / section 6 of the spec): the optional priority
    segment — present exactly when `showPriority` is enabled and the record
    carries a priority. -/
def priorityBlock (showPriority : Bool) (task : TaskRecord) : List String :=
  if showPriority && task.priority != "" then [task.priority] else []

/-- Spec-side: the optional date segment of one role, a glyph followed by the
    ISO date. -/
def dateBlock (glyph : String) (d : Option String) : List String :=
  match d with
  | some x => [glyph ++ x]
  | none => []

/-- Spec-side formatter, written from the spec words (section 4.4): the
    space-joined segments in the fixed order checkbox marker, priority glyph,
    task text, date-role glyphs in the fixed role order due, scheduled, start,
    creation-date stamp, then tags. -/
def formatTaskWireSpec (showPriority : Bool) (now : MDate) (task : TaskRecord) :
    String :=
  joinWith " "
    (["- [ ]"] ++ priorityBlock showPriority task ++ [task.text] ++
     dateBlock "📅 " task.dates.due ++ dateBlock "⏳ " task.dates.scheduled ++
     dateBlock "🛫 " task.dates.start ++ ["➕ " ++ formatYMD now] ++ task.tags)

end NoteProc
namespace NoteProc

theorem isLeap_iff (y : Int) :
    isLeap y = true ↔ ((y % 4 = 0 ∧ ¬ y % 100 = 0) ∨ y % 400 = 0) := by
  unfold isLeap
  simp only [Bool.or_eq_true, Bool.and_eq_true, beq_iff_eq, bne_iff_ne, ne_eq]

theorem daysInMonth_ge (y m : Int) : 28 ≤ daysInMonth y m := by
  unfold daysInMonth
  split_ifs <;> omega

theorem validDate_iff (t : MDate) : validDate t = true ↔
    1 ≤ t.month ∧ t.month ≤ 12 ∧ 1 ≤ t.day ∧ t.day ≤ daysInMonth t.year t.month := by
  unfold validDate
  simp [Bool.and_eq_true, decide_eq_true_eq, and_assoc]

theorem dfc_day_succ (y m d : Int) :
    daysFromCivil y m (d + 1) = daysFromCivil y m d + 1 := by
  simp only [daysFromCivil]
  split_ifs <;> omega

set_option maxHeartbeats 1000000 in
theorem dfc_feb_mar (y : Int) :
    daysFromCivil y 3 1 = daysFromCivil y 2 (daysInMonth y 2) + 1 := by
  rw [show daysInMonth y 2 = if isLeap y then 29 else 28 from rfl]
  cases hl : isLeap y with
  | true =>
    have harith := (isLeap_iff y).mp hl
    simp only [if_true]
    simp only [daysFromCivil]
    split_ifs <;> omega
  | false =>
    have harith : ¬ ((y % 4 = 0 ∧ ¬ y % 100 = 0) ∨ y % 400 = 0) := by
      intro h
      rw [(isLeap_iff y).mpr h] at hl
      exact absurd hl (by simp)
    simp only [Bool.false_eq_true, if_false]
    simp only [daysFromCivil]
    split_ifs <;> omega

set_option maxHeartbeats 1000000 in
theorem dfc_month_succ (y m : Int) (h1 : 1 ≤ m) (h2 : m ≤ 11) :
    daysFromCivil y (m + 1) 1 = daysFromCivil y m (daysInMonth y m) + 1 := by
  interval_cases m
  · rw [show daysInMonth y 1 = 31 from rfl]; simp only [daysFromCivil]; split_ifs <;> omega
  · exact dfc_feb_mar y
  · rw [show daysInMonth y 3 = 31 from rfl]; simp only [daysFromCivil]; split_ifs <;> omega
  · rw [show daysInMonth y 4 = 30 from rfl]; simp only [daysFromCivil]; split_ifs <;> omega
  · rw [show daysInMonth y 5 = 31 from rfl]; simp only [daysFromCivil]; split_ifs <;> omega
  · rw [show daysInMonth y 6 = 30 from rfl]; simp only [daysFromCivil]; split_ifs <;> omega
  · rw [show daysInMonth y 7 = 31 from rfl]; simp only [daysFromCivil]; split_ifs <;> omega
  · rw [show daysInMonth y 8 = 31 from rfl]; simp only [daysFromCivil]; split_ifs <;> omega
  · rw [show daysInMonth y 9 = 30 from rfl]; simp only [daysFromCivil]; split_ifs <;> omega
  · rw [show daysInMonth y 10 = 31 from rfl]; simp only [daysFromCivil]; split_ifs <;> omega
  · rw [show daysInMonth y 11 = 30 from rfl]; simp only [daysFromCivil]; split_ifs <;> omega

theorem dfc_year_succ (y : Int) :
    daysFromCivil (y + 1) 1 1 = daysFromCivil y 12 31 + 1 := by
  simp only [daysFromCivil]
  split_ifs <;> omega

theorem dayNumber_nextDay (t : MDate) (h : validDate t = true) :
    dayNumber (nextDay t) = dayNumber t + 1 := by
  obtain ⟨y, m, d⟩ := t
  rw [validDate_iff] at h
  obtain ⟨h1, h2, h3, h4⟩ := h
  simp only [nextDay, dayNumber] at *
  by_cases hd : d < daysInMonth y m
  · rw [if_pos hd]
    exact dfc_day_succ y m d
  · rw [if_neg hd]
    have hdd : d = daysInMonth y m := by omega
    by_cases hm : m < 12
    · rw [if_pos hm]
      rw [hdd]
      exact dfc_month_succ y m h1 (by omega)
    · rw [if_neg hm]
      have hm12 : m = 12 := by omega
      subst hm12
      rw [hdd, show daysInMonth y 12 = 31 from rfl]
      exact dfc_year_succ y

theorem validDate_nextDay (t : MDate) (h : validDate t = true) :
    validDate (nextDay t) = true := by
  obtain ⟨y, m, d⟩ := t
  rw [validDate_iff] at h
  obtain ⟨h1, h2, h3, h4⟩ := h
  simp only [nextDay] at *
  by_cases hd : d < daysInMonth y m
  · rw [if_pos hd, validDate_iff]
    dsimp only
    exact ⟨h1, h2, by omega, by omega⟩
  · rw [if_neg hd]
    by_cases hm : m < 12
    · rw [if_pos hm, validDate_iff]
      dsimp only
      have := daysInMonth_ge y (m + 1)
      exact ⟨by omega, by omega, by omega, by omega⟩
    · rw [if_neg hm, validDate_iff]
      dsimp only
      have := daysInMonth_ge (y + 1) 1
      exact ⟨by omega, by omega, by omega, by omega⟩

theorem dayNumber_prevDay (t : MDate) (h : validDate t = true) :
    dayNumber (prevDay t) = dayNumber t - 1 := by
  obtain ⟨y, m, d⟩ := t
  rw [validDate_iff] at h
  obtain ⟨h1, h2, h3, h4⟩ := h
  simp only [prevDay, dayNumber] at *
  by_cases hd : 1 < d
  · rw [if_pos hd]
    dsimp only
    have := dfc_day_succ y m (d - 1)
    have hrw : d - 1 + 1 = d := by omega
    rw [hrw] at this
    omega
  · rw [if_neg hd]
    have hd1 : d = 1 := by omega
    subst hd1
    by_cases hm : 1 < m
    · rw [if_pos hm]
      dsimp only
      have := dfc_month_succ y (m - 1) (by omega) (by omega)
      have hrw : m - 1 + 1 = m := by omega
      rw [hrw] at this
      omega
    · rw [if_neg hm]
      dsimp only
      have hm1 : m = 1 := by omega
      subst hm1
      have := dfc_year_succ (y - 1)
      have hrw : y - 1 + 1 = y := by omega
      rw [hrw] at this
      omega

theorem validDate_prevDay (t : MDate) (h : validDate t = true) :
    validDate (prevDay t) = true := by
  obtain ⟨y, m, d⟩ := t
  rw [validDate_iff] at h
  obtain ⟨h1, h2, h3, h4⟩ := h
  simp only [prevDay] at *
  by_cases hd : 1 < d
  · rw [if_pos hd, validDate_iff]
    dsimp only
    exact ⟨h1, h2, by omega, by omega⟩
  · rw [if_neg hd]
    by_cases hm : 1 < m
    · rw [if_pos hm, validDate_iff]
      dsimp only
      have := daysInMonth_ge y (m - 1)
      exact ⟨by omega, by omega, by omega, by omega⟩
    · rw [if_neg hm, validDate_iff]
      dsimp only
      refine ⟨by omega, by omega, by omega, ?_⟩
      rw [show daysInMonth (y - 1) 12 = 31 from rfl]

theorem addDaysNat_spec (n : Nat) :
    ∀ t : MDate, validDate t = true →
      validDate (addDaysNat n t) = true ∧
      dayNumber (addDaysNat n t) = dayNumber t + n := by
  induction n with
  | zero => intro t h; exact ⟨h, by simp [addDaysNat]⟩
  | succ k ih =>
    intro t h
    simp only [addDaysNat]
    obtain ⟨hv, hd⟩ := ih (nextDay t) (validDate_nextDay t h)
    refine ⟨hv, ?_⟩
    rw [hd, dayNumber_nextDay t h]
    push_cast
    ring

theorem subDaysNat_spec (n : Nat) :
    ∀ t : MDate, validDate t = true →
      validDate (subDaysNat n t) = true ∧
      dayNumber (subDaysNat n t) = dayNumber t - n := by
  induction n with
  | zero => intro t h; exact ⟨h, by simp [subDaysNat]⟩
  | succ k ih =>
    intro t h
    simp only [subDaysNat]
    obtain ⟨hv, hd⟩ := ih (prevDay t) (validDate_prevDay t h)
    refine ⟨hv, ?_⟩
    rw [hd, dayNumber_prevDay t h]
    push_cast
    ring

theorem addDays_spec (t : MDate) (k : Int) (h : validDate t = true) :
    validDate (addDays t k) = true ∧ dayNumber (addDays t k) = dayNumber t + k := by
  unfold addDays
  by_cases hk : 0 ≤ k
  · rw [if_pos hk]
    obtain ⟨hv, hd⟩ := addDaysNat_spec k.toNat t h
    exact ⟨hv, by rw [hd]; omega⟩
  · rw [if_neg hk]
    obtain ⟨hv, hd⟩ := subDaysNat_spec (-k).toNat t h
    exact ⟨hv, by rw [hd]; omega⟩

theorem applyNextUnit_wd_spec (ref : MDate) (k : Int) (hv : validDate ref = true)
    (h0 : 0 ≤ k) (h6 : k ≤ 6) :
    validDate (applyNextUnit ref (NextUnit.wd k)) = true ∧
    dowM (applyNextUnit ref (NextUnit.wd k)) = k ∧
    dayNumber ref < dayNumber (applyNextUnit ref (NextUnit.wd k)) ∧
    dayNumber (applyNextUnit ref (NextUnit.wd k)) ≤ dayNumber ref + 7 := by
  simp only [applyNextUnit, addWeeks, setDow]
  by_cases hc : dowM ref ≥ k
  · rw [if_pos hc]
    obtain ⟨hv1, hd1⟩ := addDays_spec ref (7 * 1) hv
    obtain ⟨hv2, hd2⟩ :=
      addDays_spec (addDays ref (7 * 1)) (k - dowM (addDays ref (7 * 1))) hv1
    refine ⟨hv2, ?_, ?_, ?_⟩ <;> (simp only [dowM] at *; omega)
  · rw [if_neg hc]
    obtain ⟨hv2, hd2⟩ := addDays_spec ref (k - dowM ref) hv
    refine ⟨hv2, ?_, ?_, ?_⟩ <;> (simp only [dowM] at *; omega)

end NoteProc
namespace NoteProc

theorem hasTagToken_cons_false (c : Char) (l : List Char)
    (h : hasTagToken (c :: l) = false) : hasTagToken l = false := by
  cases l with
  | nil => rfl
  | cons c2 r =>
    simp only [hasTagToken, Bool.or_eq_false_iff] at h
    exact h.2

theorem hasTagToken_append_left : ∀ (m t : List Char),
    hasTagToken (m ++ t) = false → hasTagToken m = false := by
  intro m
  induction m with
  | nil => intro t _; rfl
  | cons c m' ih =>
    intro t h
    cases m' with
    | nil => rfl
    | cons c2 r =>
      have htail : hasTagToken ((c2 :: r) ++ t) = false :=
        hasTagToken_cons_false c ((c2 :: r) ++ t) h
      have h1 : hasTagToken (c2 :: r) = false := ih t htail
      simp only [hasTagToken, Bool.or_eq_false_iff] at h ⊢
      exact ⟨h.1, h1⟩

theorem hasTagToken_append_right : ∀ (t m : List Char),
    hasTagToken (t ++ m) = false → hasTagToken m = false := by
  intro t
  induction t with
  | nil => intro m h; exact h
  | cons c t' ih =>
    intro m h
    exact ih m (hasTagToken_cons_false c (t' ++ m) h)

theorem takeWhile_nil_head (p : Char → Bool) (l : List Char) (c : Char)
    (hl : l.takeWhile p = []) (hh : l.head? = some c) : p c = false := by
  cases l with
  | nil => simp at hh
  | cons a rest =>
    simp only [List.head?_cons, Option.some.injEq] at hh
    by_cases hp : p a
    · rw [List.takeWhile_cons_of_pos hp] at hl
      simp at hl
    · rw [← hh]
      simpa using hp

theorem dropWhile_head_not (p : Char → Bool) : ∀ (l : List Char) (c : Char),
    (l.dropWhile p).head? = some c → p c = false := by
  intro l
  induction l with
  | nil => intro c h; simp [List.dropWhile] at h
  | cons a rest ih =>
    intro c h
    by_cases hp : p a
    · rw [List.dropWhile_cons_of_pos hp] at h
      exact ih c h
    · rw [List.dropWhile_cons_of_neg hp] at h
      simp only [List.head?_cons, Option.some.injEq] at h
      subst h
      simpa using hp

theorem drop_takeWhile_length (p : Char → Bool) : ∀ l : List Char,
    l.drop (l.takeWhile p).length = l.dropWhile p := by
  intro l
  induction l with
  | nil => rfl
  | cons c rest ih =>
    by_cases h : p c <;> simp [List.takeWhile_cons, List.dropWhile_cons, h, ih]

theorem tagScanF_head (fuel : Nat) : ∀ (d : List Char) (c : Char),
    ((tagScanF fuel d).2).head? = some c → isTagChar c = true →
    ∃ c0, d.head? = some c0 ∧ isTagChar c0 = true := by
  induction fuel with
  | zero => intro d c h ht; exact ⟨c, h, ht⟩
  | succ f ih =>
    intro d c h ht
    cases d with
    | nil => simp [tagScanF] at h
    | cons a rest =>
      simp only [tagScanF] at h
      by_cases ha : a == '#'
      · rw [if_pos ha] at h
        by_cases he : (rest.takeWhile isTagChar).isEmpty
        · rw [if_pos he] at h
          simp only [List.head?_cons, Option.some.injEq] at h
          have ha' : a = '#' := by simpa using ha
          rw [← h, ha'] at ht
          simp [isTagChar, isWordc] at ht
        · rw [if_neg he] at h
          obtain ⟨c0, hc0, htc0⟩ :=
            ih (rest.drop (rest.takeWhile isTagChar).length) c h ht
          rw [drop_takeWhile_length] at hc0
          have hnp := dropWhile_head_not isTagChar rest c0 hc0
          rw [htc0] at hnp
          cases hnp
      · rw [if_neg ha] at h
        simp only [List.head?_cons, Option.some.injEq] at h
        rw [← h] at ht
        exact ⟨a, rfl, ht⟩

theorem tagScanF_noTagToken (fuel : Nat) : ∀ d : List Char, d.length ≤ fuel →
    hasTagToken ((tagScanF fuel d).2) = false := by
  induction fuel with
  | zero =>
    intro d hd
    have hnil : d = [] := List.length_eq_zero.mp (by omega)
    subst hnil
    rfl
  | succ f ih =>
    intro d hd
    cases d with
    | nil => rfl
    | cons a rest =>
      have hrl : rest.length ≤ f := by
        simp only [List.length_cons] at hd
        omega
      simp only [tagScanF]
      by_cases ha : a == '#'
      · rw [if_pos ha]
        by_cases he : (rest.takeWhile isTagChar).isEmpty
        · rw [if_pos he]
          dsimp only
          have htail : hasTagToken ((tagScanF f rest).2) = false := ih rest hrl
          cases hout : ((tagScanF f rest).2) with
          | nil => rfl
          | cons c2 r2 =>
            have hnt : isTagChar c2 = false := by
              cases hq : isTagChar c2
              · rfl
              · obtain ⟨c0, hc0, htc0⟩ :=
                  tagScanF_head f rest c2 (by rw [hout]; rfl) hq
                have := takeWhile_nil_head isTagChar rest c0 (List.isEmpty_iff.mp he) hc0
                rw [htc0] at this
                cases this
            rw [hout] at htail
            simp only [hasTagToken, Bool.or_eq_false_iff]
            exact ⟨by simp [hnt], htail⟩
        · rw [if_neg he]
          dsimp only
          apply ih
          rw [List.length_drop]
          omega
      · rw [if_neg ha]
        dsimp only
        have htail : hasTagToken ((tagScanF f rest).2) = false := ih rest hrl
        cases hout : ((tagScanF f rest).2) with
        | nil => rfl
        | cons c2 r2 =>
          rw [hout] at htail
          simp only [hasTagToken, Bool.or_eq_false_iff]
          refine ⟨?_, htail⟩
          simp only [Bool.and_eq_false_iff]
          left
          simpa using ha

end NoteProc
namespace NoteProc

theorem tagScanF_tags_nil (fuel : Nat) : ∀ d : List Char, d.length ≤ fuel →
    (tagScanF fuel d).1 = [] → hasTagToken d = false := by
  induction fuel with
  | zero =>
    intro d hd _
    have hnil : d = [] := List.length_eq_zero.mp (by omega)
    subst hnil
    rfl
  | succ f ih =>
    intro d hd h1
    cases d with
    | nil => rfl
    | cons a rest =>
      have hrl : rest.length ≤ f := by
        simp only [List.length_cons] at hd
        omega
      simp only [tagScanF] at h1
      by_cases ha : a == '#'
      · rw [if_pos ha] at h1
        by_cases he : (rest.takeWhile isTagChar).isEmpty
        · rw [if_pos he] at h1
          dsimp only at h1
          have hrest : hasTagToken rest = false := ih rest hrl h1
          cases rest with
          | nil => rfl
          | cons c2 r2 =>
            have hnt : isTagChar c2 = false :=
              takeWhile_nil_head isTagChar (c2 :: r2) c2 (List.isEmpty_iff.mp he) rfl
            simp only [hasTagToken, Bool.or_eq_false_iff]
            exact ⟨by simp [hnt], hrest⟩
        · rw [if_neg he] at h1
          dsimp only at h1
          cases h1
      · rw [if_neg ha] at h1
        dsimp only at h1
        have hrest : hasTagToken rest = false := ih rest hrl h1
        cases rest with
        | nil => rfl
        | cons c2 r2 =>
          simp only [hasTagToken, Bool.or_eq_false_iff]
          refine ⟨?_, hrest⟩
          simp only [Bool.and_eq_false_iff]
          left
          simpa using ha

theorem hasTagToken_dropWhile (p : Char → Bool) (l : List Char)
    (h : hasTagToken l = false) : hasTagToken (l.dropWhile p) = false := by
  obtain ⟨t, ht⟩ := List.dropWhile_suffix (l := l) p
  exact hasTagToken_append_right t _ (by rw [ht]; exact h)

theorem hasTagToken_revDropRev (p : Char → Bool) (l : List Char)
    (h : hasTagToken l = false) : hasTagToken ((l.reverse.dropWhile p).reverse) = false := by
  obtain ⟨t2, ht2⟩ := List.dropWhile_suffix (l := l.reverse) p
  have hl : l = (l.reverse.dropWhile p).reverse ++ t2.reverse := by
    have hc := congrArg List.reverse ht2
    simpa [List.reverse_append] using hc.symm
  exact hasTagToken_append_left _ _ (by rw [← hl]; exact h)

theorem hasTagToken_trimStr (s : String) (h : hasTagToken s.data = false) :
    hasTagToken (trimStr s).data = false := by
  unfold trimStr
  exact hasTagToken_revDropRev isWSc _ (hasTagToken_dropWhile isWSc _ h)

theorem hasTagToken_dropTrailingPunct (s : String) (h : hasTagToken s.data = false) :
    hasTagToken (dropTrailingPunct s).data = false := by
  unfold dropTrailingPunct
  exact hasTagToken_trimStr _ (hasTagToken_revDropRev _ _ h)

theorem extractTags_noTag (t : String) : hasTagToken ((extractTags t).2).data = false := by
  unfold extractTags
  by_cases he : (tagScanF t.data.length t.data).1.isEmpty
  · rw [if_pos he]
    exact tagScanF_tags_nil t.data.length t.data (le_refl _) (List.isEmpty_iff.mp he)
  · rw [if_neg he]
    exact hasTagToken_trimStr _ (tagScanF_noTagToken t.data.length t.data (le_refl _))

theorem parseTaskLine_noTag (dt : String) (now : MDate) (line : String)
    (r : TaskRecord) (h : parseTaskLine dt now line = some r) :
    hasTagToken r.text.data = false := by
  unfold parseTaskLine at h
  by_cases h1 : (trimStr line == "") = true
  · rw [if_pos h1] at h
    cases h
  · rw [if_neg h1] at h
    by_cases h2 : (taskLineText now line == "") = true
    · rw [if_pos h2] at h
      cases h
    · rw [if_neg h2] at h
      injection h with h3
      rw [← h3]
      show hasTagToken (taskLineText now line).data = false
      unfold taskLineText taskLineTags
      exact hasTagToken_dropTrailingPunct _ (extractTags_noTag _)

theorem taskFoldStep_mem (dt : String) (now : MDate) :
    ∀ (lines : List String) (acc : List TaskRecord) (r : TaskRecord),
      r ∈ lines.foldl (taskFoldStep dt now) acc →
      r ∈ acc ∨ ∃ line ∈ lines, parseTaskLine dt now line = some r := by
  intro lines
  induction lines with
  | nil => intro acc r h; exact Or.inl h
  | cons x xs ih =>
    intro acc r h
    simp only [List.foldl_cons] at h
    rcases ih (taskFoldStep dt now acc x) r h with h1 | ⟨l2, hl2, hf2⟩
    · unfold taskFoldStep at h1
      cases hfx : parseTaskLine dt now x with
      | none =>
        rw [hfx] at h1
        exact Or.inl h1
      | some y =>
        rw [hfx] at h1
        rcases List.mem_append.mp h1 with h2 | h2
        · exact Or.inl h2
        · have hry : r = y := by simpa using h2
          subst hry
          exact Or.inr ⟨x, List.mem_cons_self x xs, hfx⟩
    · exact Or.inr ⟨l2, List.mem_cons_of_mem x hl2, hf2⟩

theorem parseTasks_mem_noTag (dt : String) (now : MDate) (content : String)
    (r : TaskRecord) (h : r ∈ parseTasksForObsidianTasks dt now content) :
    hasTagToken r.text.data = false := by
  unfold parseTasksForObsidianTasks at h
  rcases taskFoldStep_mem dt now (splitChar '\n' content) [] r h with
    h1 | ⟨line, _, hline⟩
  · cases h1
  · exact parseTaskLine_noTag dt now line r hline

end NoteProc
namespace NoteProc

theorem string_data_inj (a b : String) (h : a.data = b.data) : a = b :=
  congrArg String.mk h

end NoteProc
namespace NoteProc

theorem mem_getMatchingFiles (filePattern : String) (st : MonState)
    (children : List MonFile) (f : MonFile) :
    f ∈ getMatchingFiles filePattern st children ↔
      f ∈ children ∧ f.isFile = true ∧ matchesMonPattern filePattern f.name = true ∧
      st.lastProcessedTime < f.ctime ∧ ¬ f.path ∈ st.processedFiles := by
  unfold getMatchingFiles
  rw [List.mem_filter]
  simp only [Bool.and_eq_true, Bool.not_eq_true', decide_eq_false_iff_not, not_le]
  constructor
  · rintro ⟨hm, ⟨⟨⟨hf, hp⟩, hc⟩, hd⟩⟩
    exact ⟨hm, hf, hp, by omega, by simpa using hd⟩
  · rintro ⟨hm, hf, hp, hc, hd⟩
    exact ⟨hm, ⟨⟨⟨hf, hp⟩, by omega⟩, by simpa using hd⟩⟩

theorem processFilesTrace_lpt (procOk : MonFile → Bool) (st : MonState)
    (files : List MonFile) (ms : MonState) (h : ms ∈ processFilesTrace procOk st files) :
    ms.lastProcessedTime = st.lastProcessedTime := by
  unfold processFilesTrace at h
  rcases List.mem_map.mp h with ⟨d, _, hd⟩
  rw [← hd]

theorem mem_dedup_fold (procOk : MonFile → Bool) :
    ∀ (files : List MonFile) (acc : List String) (p : String),
      p ∈ files.foldl (processFilesDedup procOk) acc ↔
        p ∈ acc ∨ ∃ f, f ∈ files ∧ procOk f = true ∧ f.path = p := by
  intro files
  induction files with
  | nil =>
    intro acc p
    simp
  | cons f fs ih =>
    intro acc p
    simp only [List.foldl_cons]
    rw [ih]
    have hstep : p ∈ processFilesDedup procOk acc f ↔
        p ∈ acc ∨ (procOk f = true ∧ f.path = p) := by
      unfold processFilesDedup
      by_cases hok : procOk f = true
      · rw [if_pos hok]
        by_cases hc : acc.contains f.path
        · rw [if_pos hc]
          constructor
          · intro h; exact Or.inl h
          · rintro (h | ⟨_, hp⟩)
            · exact h
            · rw [← hp]
              exact (by simpa using hc)
        · rw [if_neg hc]
          constructor
          · intro h
            rcases List.mem_append.mp h with h1 | h1
            · exact Or.inl h1
            · exact Or.inr ⟨hok, ((by simpa using h1 : p = f.path)).symm⟩
          · rintro (h | ⟨_, hp⟩)
            · exact List.mem_append.mpr (Or.inl h)
            · exact List.mem_append.mpr (Or.inr (by simp [hp]))
      · rw [if_neg hok]
        constructor
        · intro h; exact Or.inl h
        · rintro (h | ⟨hk, _⟩)
          · exact h
          · exact absurd hk hok
    rw [hstep]
    constructor
    · rintro ((h | ⟨hk, hp⟩) | ⟨g, hg, hk, hp⟩)
      · exact Or.inl h
      · exact Or.inr ⟨f, List.mem_cons_self f fs, hk, hp⟩
      · exact Or.inr ⟨g, List.mem_cons_of_mem f hg, hk, hp⟩
    · rintro (h | ⟨g, hg, hk, hp⟩)
      · exact Or.inl (Or.inl h)
      · rcases List.mem_cons.mp hg with hgf | hgf
        · exact Or.inl (Or.inr ⟨by rw [hgf] at hk; exact hk, by rw [hgf] at hp; exact hp⟩)
        · exact Or.inr ⟨g, hgf, hk, hp⟩

theorem mem_processFiles (procOk moveOk : MonFile → Bool) (st : MonState)
    (files : List MonFile) (now : Int) (p : String) :
    p ∈ (processFiles procOk moveOk st files now).processedFiles ↔
      p ∈ st.processedFiles ∨ ∃ f, f ∈ files ∧ procOk f = true ∧ f.path = p := by
  unfold processFiles
  exact mem_dedup_fold procOk files st.processedFiles p

end NoteProc
namespace NoteProc

theorem str_append_ne_empty (s t : String) (h : s.data ≠ []) :
    ((s ++ t) != "") = true := by
  simp only [bne_iff_ne, ne_eq]
  intro he
  apply h
  have hd : (s ++ t).data = [] := by rw [he]
  rw [String.data_append] at hd
  exact (List.append_eq_nil.mp hd).1

theorem processTriggerWithGemini_ne_empty (call : TriggerHit → CallResult)
    (t : TriggerHit) (h : call t ≠ CallResult.noText) :
    (processTriggerWithGemini call t != "") = true := by
  unfold processTriggerWithGemini
  cases hc : call t with
  | ok txt =>
    exact str_append_ne_empty _ _ (by simp [String.data_append])
  | noText => exact absurd hc h
  | fail =>
    exact str_append_ne_empty _ _ (by simp [String.data_append])

theorem collectTriggerResponses_map (call : TriggerHit → CallResult)
    (relatedOut : String) (processedTasks : Bool) (tasksNotePath : String) :
    ∀ ts : List TriggerHit,
      (∀ t ∈ ts, t.action.keyword ≠ "Tasks" ∧ t.action.action ≠ "taglinks" ∧
        t.action.action ≠ "related" ∧ call t ≠ CallResult.noText) →
      collectTriggerResponses call relatedOut processedTasks tasksNotePath ts =
        ts.map (processTriggerWithGemini call) := by
  intro ts
  induction ts with
  | nil => intro _; rfl
  | cons t ts ih =>
    intro h
    obtain ⟨h1, h2, h3, h4⟩ := h t (List.mem_cons_self t ts)
    have hrest := ih (fun u hu => h u (List.mem_cons_of_mem t hu))
    have e1 : (t.action.keyword == "Tasks") = false := beq_eq_false_iff_ne.mpr h1
    have e2 : (t.action.action == "taglinks") = false := beq_eq_false_iff_ne.mpr h2
    have e3 : (t.action.action == "related") = false := beq_eq_false_iff_ne.mpr h3
    have e4 := processTriggerWithGemini_ne_empty call t h4
    simp only [collectTriggerResponses, e1, e2, e3, e4, Bool.false_and,
      Bool.false_or, Bool.false_eq_true, if_false, if_true, List.map_cons]
    rw [hrest]

end NoteProc
namespace NoteProc

theorem isWordc_not_isWSc (c : Char) (h : isWordc c = true) : isWSc c = false := by
  cases hw : isWSc c
  · rfl
  · exfalso
    unfold isWSc at hw
    simp only [Bool.or_eq_true, beq_iff_eq] at hw
    rcases hw with ((h1 | h1) | h1) | h1 <;> subst h1 <;> exact absurd h (by decide)

theorem takeWhile_all (p : Char → Bool) : ∀ (l : List Char),
    (∀ c ∈ l, p c = true) → l.takeWhile p = l := by
  intro l
  induction l with
  | nil => intro _; rfl
  | cons c t ih =>
    intro h
    rw [List.takeWhile_cons_of_pos (h c (by simp)), ih (fun x hx => h x (by simp [hx]))]

theorem translateMatch_to (c0 : Char) (w' : List Char)
    (hall : ∀ c ∈ c0 :: w', isWordc c = true) :
    translateMatch (String.mk ("Translate to ".data ++ (c0 :: w'))) =
      some (String.mk (c0 :: w')) := by
  have h0 : isWSc c0 = false := isWordc_not_isWSc c0 (hall c0 (by simp))
  have htw : (c0 :: w').takeWhile isWSc = [] :=
    List.takeWhile_cons_of_neg (by simp [h0])
  have hta : (c0 :: w').takeWhile isWordc = c0 :: w' := takeWhile_all _ _ hall
  have e1 : translateMatch (String.mk ("Translate to ".data ++ (c0 :: w'))) =
      (let r4 := (' ' :: c0 :: w').drop (' ' :: (c0 :: w').takeWhile isWSc).length
       let word := r4.takeWhile isWordc
       if !word.isEmpty && (r4.drop word.length).isEmpty then some (String.mk word)
       else none) := rfl
  rw [e1, htw]
  show (if !((c0 :: w').takeWhile isWordc).isEmpty &&
          ((c0 :: w').drop ((c0 :: w').takeWhile isWordc).length).isEmpty
        then some (String.mk ((c0 :: w').takeWhile isWordc)) else none) =
       some (String.mk (c0 :: w'))
  rw [hta, List.drop_length]
  rfl

theorem translateMatch_into (c0 : Char) (w' : List Char)
    (hall : ∀ c ∈ c0 :: w', isWordc c = true) :
    translateMatch (String.mk ("Translate into ".data ++ (c0 :: w'))) =
      some (String.mk (c0 :: w')) := by
  have h0 : isWSc c0 = false := isWordc_not_isWSc c0 (hall c0 (by simp))
  have htw : (c0 :: w').takeWhile isWSc = [] :=
    List.takeWhile_cons_of_neg (by simp [h0])
  have hta : (c0 :: w').takeWhile isWordc = c0 :: w' := takeWhile_all _ _ hall
  have e1 : translateMatch (String.mk ("Translate into ".data ++ (c0 :: w'))) =
      (let r4 := (' ' :: c0 :: w').drop (' ' :: (c0 :: w').takeWhile isWSc).length
       let word := r4.takeWhile isWordc
       if !word.isEmpty && (r4.drop word.length).isEmpty then some (String.mk word)
       else none) := rfl
  rw [e1, htw]
  show (if !((c0 :: w').takeWhile isWordc).isEmpty &&
          ((c0 :: w').drop ((c0 :: w').takeWhile isWordc).length).isEmpty
        then some (String.mk ((c0 :: w').takeWhile isWordc)) else none) =
       some (String.mk (c0 :: w'))
  rw [hta, List.drop_length]
  rfl

theorem detect_foldl_filterMap (actions : List TriggerAction) :
    ∀ (ps : List (List Char × List Char)) (acc : List TriggerHit),
      ps.foldl (fun acc p =>
        let underlined := trimStr (String.mk p.1)
        let content := trimStr (String.mk p.2)
        match translateMatch underlined with
        | some lang =>
          match actions.find? (fun a => a.action == "translate" && a.enabled) with
          | some ta =>
            acc ++ [⟨"Translate to " ++ lang, content,
                    { ta with keyword := "Translate to " ++ lang }⟩]
          | none => acc
        | none =>
          let fw := firstWordOf underlined
          match actions.find? (fun a => lowerStr a.keyword == lowerStr fw && a.enabled) with
          | some a => acc ++ [⟨fw, content, a⟩]
          | none => acc) acc =
      acc ++ ps.filterMap (spanTrigger actions) := by
  intro ps
  induction ps with
  | nil => intro acc; simp
  | cons p ps ih =>
    intro acc
    rw [List.foldl_cons, ih, List.filterMap_cons]
    cases ht : translateMatch (trimStr (String.mk p.1)) with
    | some lang =>
      cases hf : actions.find? (fun a => a.action == "translate" && a.enabled) with
      | some ta => simp [spanTrigger, ht, hf, List.append_assoc]
      | none => simp [spanTrigger, ht, hf]
    | none =>
      cases hf : actions.find? (fun a =>
          lowerStr a.keyword == lowerStr (firstWordOf (trimStr (String.mk p.1))) && a.enabled) with
      | some a => simp [spanTrigger, ht, hf, List.append_assoc]
      | none => simp [spanTrigger, ht, hf]

theorem detectTriggerWords_eq_filterMap (actions : List TriggerAction) (text : String) :
    detectTriggerWords actions text =
      (underlineScanF text.data.length text.data).filterMap (spanTrigger actions) := by
  unfold detectTriggerWords
  exact (detect_foldl_filterMap actions _ []).trans (List.nil_append _)

theorem isPrefixOf_self_char : ∀ (l : List Char), l.isPrefixOf l = true := by
  intro l
  induction l with
  | nil => rfl
  | cons c t ih =>
    show (c == c && t.isPrefixOf t) = true
    simp [ih]

theorem hasSubstrAux_suffix : ∀ (pre pat : List Char), hasSubstrAux pat (pre ++ pat) = true := by
  intro pre
  induction pre with
  | nil =>
    intro pat
    cases pat with
    | nil => rfl
    | cons c t =>
      show (List.isPrefixOf (c :: t) (c :: t) || hasSubstrAux (c :: t) t) = true
      rw [isPrefixOf_self_char]
      rfl
  | cons c pre ih =>
    intro pat
    show (List.isPrefixOf pat (c :: (pre ++ pat)) || hasSubstrAux pat (pre ++ pat)) = true
    rw [ih]
    simp

/-- C1 (counterexample): the round-trip claim fails on the spec's own example.
    Extracting "- [ ] !!! Finish report DUE: tomorrow #urgent" leaves the
    checkbox, the "!!!" marker and the "DUE:" marker inside the text field
    (the leading "[ ]" keeps "!!!" off the start of the line so the priority
    anchor never fires, and the colon right after "DUE" defeats the
    whitespace the due pattern requires), so the formatted line carries
    neither the high-priority glyph nor a due-date glyph. -/
theorem c1_roundtrip_counterexample :
    parseTasksForObsidianTasks "" ⟨2024, 3, 10⟩
        "- [ ] !!! Finish report DUE: tomorrow #urgent" =
      [⟨"[ ] !!! Finish report DUE: tomorrow", "", ["#urgent"], ⟨none, none, none⟩⟩] ∧
    hasSubstr "[ ] !!! Finish report DUE: tomorrow" "DUE:" = true ∧
    hasSubstr "[ ] !!! Finish report DUE: tomorrow" "!!!" = true ∧
    formatTaskForObsidianTasks true ⟨2024, 3, 10⟩
        ⟨"[ ] !!! Finish report DUE: tomorrow", "", ["#urgent"], ⟨none, none, none⟩⟩ =
      "- [ ] [ ] !!! Finish report DUE: tomorrow ➕ 2024-03-10 #urgent" ∧
    hasSubstr "- [ ] [ ] !!! Finish report DUE: tomorrow ➕ 2024-03-10 #urgent" "⏫" = false ∧
    hasSubstr "- [ ] [ ] !!! Finish report DUE: tomorrow ➕ 2024-03-10 #urgent" "📅" = false := by
  refine ⟨?_, ?_, ?_, ?_, ?_, ?_⟩ <;> rfl

/-- C1 (amended): what the extractor does guarantee — the text field of every
    record produced by `parseTasksForObsidianTasks` contains no residual
    hashtag token, and on the well-formed variant
    "- !!! Finish report due tomorrow, #urgent" the extraction and the
    formatting behave exactly as the spec describes: priority glyph, clean
    text, resolved due date and the tag. -/
theorem c1_roundtrip_amended :
    (∀ (dt : String) (now : MDate) (content : String) (r : TaskRecord),
      r ∈ parseTasksForObsidianTasks dt now content →
      hasTagToken r.text.data = false) ∧
    parseTasksForObsidianTasks "" ⟨2024, 3, 10⟩
        "- !!! Finish report due tomorrow, #urgent" =
      [⟨"Finish report", "⏫", ["#urgent"], ⟨some "2024-03-11", none, none⟩⟩] ∧
    formatTaskForObsidianTasks true ⟨2024, 3, 10⟩
        ⟨"Finish report", "⏫", ["#urgent"], ⟨some "2024-03-11", none, none⟩⟩ =
      "- [ ] ⏫ Finish report 📅 2024-03-11 ➕ 2024-03-10 #urgent" :=
  ⟨parseTasks_mem_noTag, by rfl, by rfl⟩

/-- C1 (witness for the amended theorem): the no-residual-hashtag invariant
    applied to the record the corrected example actually produces. -/
theorem c1_roundtrip_amended_witness :
    hasTagToken ("Finish report" : String).data = false :=
  c1_roundtrip_amended.1 "" ⟨2024, 3, 10⟩ "- !!! Finish report due tomorrow, #urgent"
    ⟨"Finish report", "⏫", ["#urgent"], ⟨some "2024-03-11", none, none⟩⟩
    (by
      rw [show parseTasksForObsidianTasks "" ⟨2024, 3, 10⟩
            "- !!! Finish report due tomorrow, #urgent" =
          [⟨"Finish report", "⏫", ["#urgent"], ⟨some "2024-03-11", none, none⟩⟩] from rfl]
      exact List.mem_singleton.mpr rfl)

/-- C2: a child of the watched folder is selected iff it is a file whose name
    matches the anchored case-insensitive pattern, whose creation time is
    strictly newer than `lastProcessedTime`, and whose path is not in the
    session set; no state observable during the batch loop has an advanced
    `lastProcessedTime` (the code assigns it once, after the loop); and in
    the two-file scenario only scan-002.png is eligible while the poll right
    after the cycle finds zero eligible files. -/
theorem c2_monitor_eligibility_and_cutoff :
    (∀ (filePattern : String) (st : MonState) (children : List MonFile) (f : MonFile),
      f ∈ getMatchingFiles filePattern st children ↔
        f ∈ children ∧ f.isFile = true ∧ matchesMonPattern filePattern f.name = true ∧
        st.lastProcessedTime < f.ctime ∧ ¬ f.path ∈ st.processedFiles) ∧
    (∀ (procOk : MonFile → Bool) (st : MonState) (files : List MonFile) (ms : MonState),
      ms ∈ processFilesTrace procOk st files →
      ms.lastProcessedTime = st.lastProcessedTime) ∧
    getMatchingFiles "scan-*" ⟨100, []⟩
        [⟨"scan-001.png", "Watched/scan-001.png", 50, true⟩,
         ⟨"scan-002.png", "Watched/scan-002.png", 150, true⟩] =
      [⟨"scan-002.png", "Watched/scan-002.png", 150, true⟩] ∧
    getMatchingFiles "scan-*"
        (processFiles (fun _ => true) (fun _ => true) ⟨100, []⟩
          [⟨"scan-002.png", "Watched/scan-002.png", 150, true⟩] 200)
        [⟨"scan-001.png", "Watched/scan-001.png", 50, true⟩,
         ⟨"scan-002.png", "Watched/scan-002.png", 150, true⟩] = [] :=
  ⟨mem_getMatchingFiles, processFilesTrace_lpt, by rfl, by rfl⟩

/-- C2 (witness): the mid-batch state reached after processing scan-002.png
    still carries the original cutoff. -/
theorem c2_monitor_eligibility_and_cutoff_witness :
    (⟨100, ["Watched/scan-002.png"]⟩ : MonState).lastProcessedTime =
      (⟨100, []⟩ : MonState).lastProcessedTime :=
  c2_monitor_eligibility_and_cutoff.2.1 (fun _ => true) ⟨100, []⟩
    [⟨"scan-002.png", "Watched/scan-002.png", 150, true⟩]
    ⟨100, ["Watched/scan-002.png"]⟩
    (by
      rw [show processFilesTrace (fun _ => true) ⟨100, []⟩
            [⟨"scan-002.png", "Watched/scan-002.png", 150, true⟩] =
          [⟨100, ["Watched/scan-002.png"]⟩] from rfl]
      exact List.mem_singleton.mpr rfl)

/-- C3: for every valid reference date and every weekday numeral, the phrase
    "next <weekday>" parses — in both copies of `parseNaturalDate` — to a
    date that falls on that weekday, strictly after the reference and at most
    seven days ahead; concretely "next Monday" from Monday 2024-03-11 yields
    2024-03-18. -/
theorem c3_next_weekday :
    (∀ (ref : MDate) (k : Int), validDate ref = true → 0 ≤ k → k ≤ 6 →
      ∃ r : MDate,
        parseNaturalDateD ("next " ++ weekdayName k) (some ref) ref = some r ∧
        parseNaturalDateV1D ("next " ++ weekdayName k) (some ref) ref = some r ∧
        dowM r = k ∧ dayNumber ref < dayNumber r ∧ dayNumber r ≤ dayNumber ref + 7) ∧
    parseNaturalDate "next Monday" (some ⟨2024, 3, 11⟩) ⟨2024, 3, 11⟩ = some "2024-03-18" ∧
    dowM ⟨2024, 3, 11⟩ = 1 ∧ formatYMD ⟨2024, 3, 11⟩ = "2024-03-11" := by
  refine ⟨?_, by rfl, by rfl, by rfl⟩
  intro ref k hv h0 h6
  interval_cases k <;>
    exact ⟨_, rfl, rfl, (applyNextUnit_wd_spec ref _ hv (by omega) (by omega)).2⟩

/-- C3 (witness): the universal part instantiated at Monday 2024-03-11 and
    weekday numeral 1. -/
theorem c3_next_weekday_witness :
    validDate ⟨2024, 3, 11⟩ = true ∧
    ∃ r : MDate,
      parseNaturalDateD ("next " ++ weekdayName 1) (some ⟨2024, 3, 11⟩) ⟨2024, 3, 11⟩ =
        some r ∧
      parseNaturalDateV1D ("next " ++ weekdayName 1) (some ⟨2024, 3, 11⟩) ⟨2024, 3, 11⟩ =
        some r ∧
      dowM r = 1 ∧ dayNumber ⟨2024, 3, 11⟩ < dayNumber r ∧
      dayNumber r ≤ dayNumber ⟨2024, 3, 11⟩ + 7 :=
  ⟨by rfl, c3_next_weekday.1 ⟨2024, 3, 11⟩ 1 (by rfl) (by decide) (by decide)⟩

/-- C4: trigger processing is failure-contained: over any trigger list that
    avoids the special-cased Tasks and related-notes paths and whose calls
    all produce output, the dispatch loop is a plain map — each trigger is
    dispatched independently of the outcomes of the others; a failed call is
    replaced by the "### <keyword> - Processing Failed" block; and in a
    document whose first trigger fails the second trigger's results still
    appear in the merged Triggered Actions output. -/
theorem c4_trigger_failure_containment :
    (∀ (call : TriggerHit → CallResult) (relatedOut : String)
       (processedTasks : Bool) (tasksNotePath : String) (ts : List TriggerHit),
      (∀ t ∈ ts, t.action.keyword ≠ "Tasks" ∧ t.action.action ≠ "taglinks" ∧
        t.action.action ≠ "related" ∧ call t ≠ CallResult.noText) →
      collectTriggerResponses call relatedOut processedTasks tasksNotePath ts =
        ts.map (processTriggerWithGemini call)) ∧
    (∀ (call : TriggerHit → CallResult) (t : TriggerHit),
      call t = CallResult.fail →
      processTriggerWithGemini call t =
        "### " ++ t.trigger ++
          " - Processing Failed\nCould not process this trigger action.") ∧
    processTriggersInText ⟨defaultTriggerActions, false, "Tasks.md"⟩
        (fun t => if t.trigger == "Research" then CallResult.fail
                  else CallResult.ok "More detail.")
        (fun _ => 0) "" "<u>Research</u> topic A\n<u>Expand</u> topic B" =
      "<u>Research</u> topic A\n<u>Expand</u> topic B" ++
        "\n\n---\n## Triggered Actions\n\n" ++
        "### Research - Processing Failed\nCould not process this trigger action." ++
        "\n\n" ++ "### Expand Results\nMore detail." := by
  refine ⟨?_, ?_, by rfl⟩
  · exact collectTriggerResponses_map
  · intro call t hc
    unfold processTriggerWithGemini
    rw [hc]

/-- C4 (witness): the dispatch-is-a-map part applied to a one-element trigger
    list whose call fails, yielding exactly the failure placeholder. -/
theorem c4_trigger_failure_containment_witness :
    collectTriggerResponses
        (fun _ => CallResult.fail) "" false "Tasks.md"
        [⟨"Research", "topic A", ⟨"Research", "research", true, true⟩⟩] =
      ["### Research - Processing Failed\nCould not process this trigger action."] := by
  rw [c4_trigger_failure_containment.1 (fun _ => CallResult.fail) "" false "Tasks.md"
    [⟨"Research", "topic A", ⟨"Research", "research", true, true⟩⟩]
    (by
      intro t ht
      rw [List.mem_singleton.mp ht]
      exact ⟨by decide, by decide, by decide, by decide⟩)]
  rfl

/-- C5 (counterexample): the claim that natural-language date normalisation
    is a pure function of the note text is false as the code stands — every
    call site invokes `parseNaturalDate` with no reference instant, so the
    parser falls back to the ambient clock: the same input "tomorrow"
    normalises to different dates under different current dates, and
    `processExtractedTasks` inherits the dependence. -/
theorem c5_ambient_clock_counterexample :
    parseNaturalDateV1 "tomorrow" none ⟨2024, 3, 10⟩ ≠
      parseNaturalDateV1 "tomorrow" none ⟨2024, 6, 15⟩ ∧
    processExtractedTasks "" ⟨2024, 3, 10⟩ "- [ ] Report DUE: tomorrow" ≠
      processExtractedTasks "" ⟨2024, 6, 15⟩ "- [ ] Report DUE: tomorrow" :=
  ⟨by decide, by decide⟩

/-- C5 (amended): what does hold — given an explicit base date the parser is
    deterministic: the result depends only on the input string and the base,
    not on the ambient clock; and the no-base-date call coincides with
    passing the ambient current date explicitly as the base. -/
theorem c5_ambient_clock_amended :
    (∀ (s : String) (b n1 n2 : MDate),
      parseNaturalDate s (some b) n1 = parseNaturalDate s (some b) n2) ∧
    (∀ (s : String) (n : MDate),
      parseNaturalDate s none n = parseNaturalDate s (some n) n) :=
  ⟨fun _ _ _ _ => rfl, fun _ _ => rfl⟩

/-- C6: when a date-role marker matches but its captured phrase does not
    parse, the extraction step records no date and leaves the text untouched,
    marker included — in both the `processExtractedTasks` path and the
    `parseTasksForObsidianTasks` path; concretely "DUE: someday soon" and
    "by Friday" survive verbatim with no date recorded. -/
theorem c6_unparseable_date_dropped :
    (∀ (marker : List Char) (stops : List (List Char)) (now : MDate) (t : String)
        (m0 phrase : List Char),
      markerSearch marker stops none t.data = some (m0, phrase) →
      parseNaturalDateV1 (String.mk phrase) none now = none →
      dateStepPE marker stops now t = (t, none)) ∧
    (∀ (kws : List String) (now : MDate) (t : String) (m0 cap : List Char),
      inlineKwSearch kws none t.data = some (m0, cap) →
      parseNaturalDateV1 (String.mk cap) none now = none →
      inlineDateStep kws now t = (t, none)) ∧
    processExtractedTasks "" ⟨2025, 1, 15⟩ "- [ ] Report DUE: someday soon" =
      "- [ ] Report DUE: someday soon ➕ 2025-01-15" ∧
    parseTasksForObsidianTasks "" ⟨2025, 1, 15⟩ "- Call John by Friday" =
      [⟨"Call John by Friday", "", [], ⟨none, none, none⟩⟩] := by
  refine ⟨?_, ?_, by rfl, by rfl⟩
  · intro marker stops now t m0 phrase h1 h2
    simp only [dateStepPE, h1, h2]
  · intro kws now t m0 cap h1 h2
    simp only [inlineDateStep, h1, h2]

/-- C6 (witness): the step-level part applied to the concrete DUE: marker
    with the unparseable phrase "someday soon". -/
theorem c6_unparseable_date_dropped_witness :
    dateStepPE "due:".data ["scheduled:".data, "start:".data] ⟨2025, 1, 15⟩
      "Report due: someday soon" = ("Report due: someday soon", none) :=
  c6_unparseable_date_dropped.1 "due:".data ["scheduled:".data, "start:".data]
    ⟨2025, 1, 15⟩ "Report due: someday soon" "due: someday soon".data
    "someday soon".data (by rfl) (by rfl)

/-- C7: the translate special case, universally: over every action table and
    every input text the scanner's output is the per-span filterMap of its
    underline matches; every span whose trimmed group matches the translate
    pattern contributes exactly one trigger, routed to the table's enabled
    translate entry regardless of that entry's keyword, carrying the derived
    "Translate to <language>" keyword; an enabled-translate lookup can only
    return a translate action; the "Translate to/into <word>" match itself
    succeeds for every nonempty word-character language; the derived keyword
    contains the target language for every language; and the spec's concrete
    instance holds for every casing of the generic table keyword, in
    particular under the stock table. -/
theorem c7_translate_trigger :
    (∀ (actions : List TriggerAction) (text : String),
      detectTriggerWords actions text =
        (underlineScanF text.data.length text.data).filterMap (spanTrigger actions)) ∧
    (∀ (actions : List TriggerAction) (p : List Char × List Char) (lang : String)
       (ta : TriggerAction),
      translateMatch (trimStr (String.mk p.1)) = some lang →
      actions.find? (fun a => a.action == "translate" && a.enabled) = some ta →
      spanTrigger actions p =
        some ⟨"Translate to " ++ lang, trimStr (String.mk p.2),
              ⟨"Translate to " ++ lang, ta.action, ta.requiresList, ta.enabled⟩⟩) ∧
    (∀ (actions : List TriggerAction) (ta : TriggerAction),
      actions.find? (fun a => a.action == "translate" && a.enabled) = some ta →
      ta.action = "translate" ∧ ta.enabled = true) ∧
    (∀ (w : List Char), w ≠ [] → (∀ c ∈ w, isWordc c = true) →
      translateMatch (String.mk ("Translate to ".data ++ w)) = some (String.mk w) ∧
      translateMatch (String.mk ("Translate into ".data ++ w)) = some (String.mk w)) ∧
    (∀ lang : String, hasSubstr ("Translate to " ++ lang) lang = true) ∧
    (∀ (kw : String) (rl : Bool),
      detectTriggerWords [⟨kw, "translate", rl, true⟩]
          "<u>Translate to French</u>: Bonjour le monde" =
        [⟨"Translate to French", "Bonjour le monde",
          ⟨"Translate to French", "translate", rl, true⟩⟩]) ∧
    detectTriggerWords defaultTriggerActions "<u>Translate to French</u>: Bonjour le monde" =
      [⟨"Translate to French", "Bonjour le monde",
        ⟨"Translate to French", "translate", false, true⟩⟩] := by
  refine ⟨detectTriggerWords_eq_filterMap, ?_, ?_, ?_, ?_, fun _ _ => rfl, rfl⟩
  · intro actions p lang ta ht hf
    simp only [spanTrigger, ht, hf, Option.map_some']
  · intro actions ta hf
    have hp := List.find?_some hf
    simp only [Bool.and_eq_true, beq_iff_eq] at hp
    exact ⟨hp.1, hp.2⟩
  · intro w hne hall
    match w, hne with
    | c0 :: w', _ => exact ⟨translateMatch_to c0 w' hall, translateMatch_into c0 w' hall⟩
  · intro lang
    unfold hasSubstr
    rw [String.data_append]
    exact hasSubstrAux_suffix _ _

/-- C7 (witness): the routing universal applied to a concrete span in another
    language, under the stock table. -/
theorem c7_translate_trigger_witness :
    spanTrigger defaultTriggerActions
        ("Translate to German".data, "Hallo Welt".data) =
      some ⟨"Translate to German", "Hallo Welt",
            ⟨"Translate to German", "translate", false, true⟩⟩ :=
  c7_translate_trigger.2.1 defaultTriggerActions
    ("Translate to German".data, "Hallo Welt".data) "German"
    ⟨"Translate", "translate", false, true⟩ (by rfl) (by rfl)

/-- C8: the formatter meets the wire-format contract of the spec exactly: for
    every priority setting, clock date and record, its output is the
    single-space join of the checkbox, the optional priority glyph, the text,
    the present date glyphs in due/scheduled/start order, the creation stamp
    and the tags. -/
theorem c8_formatter_refinement (showPriority : Bool) (now : MDate) (task : TaskRecord) :
    formatTaskForObsidianTasks showPriority now task =
      formatTaskWireSpec showPriority now task := by
  obtain ⟨text, prio, tags, due, sched, start⟩ := task
  simp only [formatTaskForObsidianTasks, formatTaskWireSpec, priorityBlock, dateBlock]
  by_cases hp : (showPriority && prio != "") = true <;>
    [rw [if_pos hp]; rw [if_neg hp]] <;>
  rcases due with _ | d <;> rcases sched with _ | sc <;> rcases start with _ | st <;>
  rcases tags with _ | ⟨tg, tgs⟩ <;>
  · apply string_data_inj
    simp only [hp, if_true, if_false, joinWith, List.cons_append, List.nil_append,
      List.append_assoc, String.data_append,
      show (" " : String).data = [' '] from rfl,
      show ("- [ ] " : String).data = ['-', ' ', '[', ' ', ']', ' '] from rfl,
      show ("- [ ]" : String).data = ['-', ' ', '[', ' ', ']'] from rfl,
      show (" 📅 " : String).data = [' ', '📅', ' '] from rfl,
      show ("📅 " : String).data = ['📅', ' '] from rfl,
      show (" ⏳ " : String).data = [' ', '⏳', ' '] from rfl,
      show ("⏳ " : String).data = ['⏳', ' '] from rfl,
      show (" 🛫 " : String).data = [' ', '🛫', ' '] from rfl,
      show ("🛫 " : String).data = ['🛫', ' '] from rfl,
      show (" ➕ " : String).data = [' ', '➕', ' '] from rfl,
      show ("➕ " : String).data = ['➕', ' '] from rfl,
      List.length_nil, List.length_cons, gt_iff_lt, lt_self_iff_false, if_false,
      Nat.succ_pos, if_true, String.data_append, List.append_assoc]

/-- C9: explicit calendar dates are recognised once every relative form has
    failed: a day-then-month match hands its (day, month index, optional
    year) triple to the resolver, a month-then-day match hands (month index,
    day, optional year), an explicit year is taken verbatim, and a missing
    year defaults to the current year bumped one year forward when the date
    has already passed. -/
theorem c9_ordinal_dates :
    (∀ (s : String) (today : MDate) (d mi : Int) (yOpt : Option Int),
      (trimStr (lowerStr s) == "today" || trimStr (lowerStr s) == "tonight") = false →
      (trimStr (lowerStr s) == "tomorrow") = false →
      (trimStr (lowerStr s) == "yesterday") = false →
      nextMatch (trimStr (lowerStr s)) = none →
      thisMatch (trimStr (lowerStr s)) = none →
      inMatch (trimStr (lowerStr s)) = none →
      fromNowMatch (trimStr (lowerStr s)) = none →
      ordinalDateMatch (trimStr (lowerStr s)) = some (d, mi, yOpt) →
      parseNaturalDateD s (some today) today =
        some (resolveDayMonthYear today d mi yOpt)) ∧
    (∀ (s : String) (today : MDate) (d mi : Int) (yOpt : Option Int),
      (trimStr (lowerStr s) == "today" || trimStr (lowerStr s) == "tonight") = false →
      (trimStr (lowerStr s) == "tomorrow") = false →
      (trimStr (lowerStr s) == "yesterday") = false →
      nextMatch (trimStr (lowerStr s)) = none →
      thisMatch (trimStr (lowerStr s)) = none →
      inMatch (trimStr (lowerStr s)) = none →
      fromNowMatch (trimStr (lowerStr s)) = none →
      ordinalDateMatch (trimStr (lowerStr s)) = none →
      monthDayMatch (trimStr (lowerStr s)) = some (mi, d, yOpt) →
      parseNaturalDateD s (some today) today =
        some (resolveDayMonthYear today d mi yOpt)) ∧
    (∀ (today : MDate) (d mi y : Int),
      resolveDayMonthYear today d mi (some y) = dateOverflow 48 y (mi + 1) d) ∧
    (∀ (today : MDate) (d mi : Int),
      resolveDayMonthYear today d mi none =
        (if dayNumber (dateOverflow 48 today.year (mi + 1) d) < dayNumber today
         then addYearsClamped (dateOverflow 48 today.year (mi + 1) d) 1
         else dateOverflow 48 today.year (mi + 1) d)) := by
  refine ⟨?_, ?_, ?_, ?_⟩
  · intro s today d mi yOpt h1 h2 h3 h4 h5 h6 h7 h8
    simp only [parseNaturalDateD, h1, h2, h3, h4, h5, h6, h7, h8]
    simp
  · intro s today d mi yOpt h1 h2 h3 h4 h5 h6 h7 h8 h9
    simp only [parseNaturalDateD, h1, h2, h3, h4, h5, h6, h7, h8, h9]
    simp
  · intro today d mi y
    rfl
  · intro today d mi
    rfl

/-- C9 (witness): the day-then-month branch applied to "15th March" seen from
    2024-03-10. -/
theorem c9_ordinal_dates_witness :
    parseNaturalDateD "15th March" (some ⟨2024, 3, 10⟩) ⟨2024, 3, 10⟩ =
      some (resolveDayMonthYear ⟨2024, 3, 10⟩ 15 2 none) :=
  c9_ordinal_dates.1 "15th March" ⟨2024, 3, 10⟩ 15 2 none (by rfl) (by rfl) (by rfl)
    (by rfl) (by rfl) (by rfl) (by rfl) (by rfl)

/-- C10: a file whose per-file processing throws is silently never retried:
    its path is not added to the session set (while any succeeding file's
    is), yet `lastProcessedTime` still jumps to the poll instant at the end
    of the batch, and a file whose creation time is at or below the cutoff
    can never be selected again; concretely, after a cycle in which
    scan-002.png fails and scan-003.png succeeds, the session set holds only
    scan-003.png and the next poll returns nothing. -/
theorem c10_failed_file_never_retried :
    (∀ (procOk moveOk : MonFile → Bool) (st : MonState) (files : List MonFile)
       (now : Int) (f : MonFile),
      ¬ f.path ∈ st.processedFiles →
      (∀ g ∈ files, g.path = f.path → procOk g = false) →
      ¬ f.path ∈ (processFiles procOk moveOk st files now).processedFiles) ∧
    (∀ (procOk moveOk : MonFile → Bool) (st : MonState) (files : List MonFile)
       (now : Int) (g : MonFile), g ∈ files → procOk g = true →
      g.path ∈ (processFiles procOk moveOk st files now).processedFiles) ∧
    (∀ (procOk moveOk : MonFile → Bool) (st : MonState) (files : List MonFile)
       (now : Int),
      (processFiles procOk moveOk st files now).lastProcessedTime = now) ∧
    (∀ (filePattern : String) (st : MonState) (children : List MonFile) (f : MonFile),
      f.ctime ≤ st.lastProcessedTime → ¬ f ∈ getMatchingFiles filePattern st children) ∧
    processFiles (fun g => g.path == "Watched/scan-003.png") (fun _ => true)
        ⟨100, []⟩
        [⟨"scan-002.png", "Watched/scan-002.png", 150, true⟩,
         ⟨"scan-003.png", "Watched/scan-003.png", 160, true⟩] 200 =
      ⟨200, ["Watched/scan-003.png"]⟩ ∧
    getMatchingFiles "scan-*" ⟨200, ["Watched/scan-003.png"]⟩
        [⟨"scan-002.png", "Watched/scan-002.png", 150, true⟩,
         ⟨"scan-003.png", "Watched/scan-003.png", 160, true⟩] = [] := by
  refine ⟨?_, ?_, ?_, ?_, by rfl, by rfl⟩
  · intro procOk moveOk st files now f hnotin hfail h
    rcases (mem_processFiles procOk moveOk st files now f.path).mp h with
      h1 | ⟨g, hg, hk, hp⟩
    · exact hnotin h1
    · rw [hfail g hg hp] at hk
      exact absurd hk (by simp)
  · intro procOk moveOk st files now g hg hk
    exact (mem_processFiles procOk moveOk st files now g.path).mpr
      (Or.inr ⟨g, hg, hk, rfl⟩)
  · intro procOk moveOk st files now
    rfl
  · intro filePattern st children f hle hmem
    obtain ⟨_, _, _, hlt, _⟩ :=
      (mem_getMatchingFiles filePattern st children f).mp hmem
    omega

/-- C10 (witness): the succeeding-file part applied to the concrete scenario:
    scan-003.png, whose processing succeeds, lands in the session set. -/
theorem c10_failed_file_never_retried_witness :
    "Watched/scan-003.png" ∈
      (processFiles (fun g => g.path == "Watched/scan-003.png") (fun _ => true)
        ⟨100, []⟩ [⟨"scan-003.png", "Watched/scan-003.png", 160, true⟩]
        200).processedFiles :=
  c10_failed_file_never_retried.2.1
    (fun g => g.path == "Watched/scan-003.png") (fun _ => true) ⟨100, []⟩
    [⟨"scan-003.png", "Watched/scan-003.png", 160, true⟩] 200
    ⟨"scan-003.png", "Watched/scan-003.png", 160, true⟩
    (List.mem_singleton.mpr rfl) (by rfl)

end NoteProc
